import Mathlib

/-!
# Verification of the Kherimoya server registry core (`src/core/servers.py`)

A shallow embedding of the server registry and lifecycle controller:
the `KherimoyaServer` entity, `refresh`, enumeration (`_list_servers` and
its typed wrappers), identifier allocation (`_generate_unique_id`),
conflict repair (`resolve_id_conflicts`), creation
(`create_server` / `_create_server_with_python`), renaming
(`rename_server`) and stopping (`stop_server`).

The filesystem is modelled as a list of (path, is-directory) entries,
paths being lists of components relative to the project root.  External
interactions (the tmux session, the endstone process, randomness) are
modelled as oracles; loops that wait on the outside world take a finite
observation list and return `none` when it is exhausted, so every
definition is total and executable.
-/

namespace Kherimoya

/-- Modelled from the spec: the module `src/core/constants.py`, imported by
`src/core/servers.py` for `DELIMITER`, is not among the provided sources.
§6 of the spec fixes its value: "`<DELIMITER>` is a single reserved character
not permitted inside names or identifiers (source uses `@`)". -/
def DELIMITER : Char := '@'

/-- Python `str.lower()` (character-wise, as used on ASCII identifiers). -/
def lower (s : String) : String := ⟨s.data.map Char.toLower⟩

/-- Python `str.strip()` (drop leading and trailing whitespace). -/
def pyStrip (s : String) : String :=
  ⟨((s.data.dropWhile Char.isWhitespace).reverse.dropWhile Char.isWhitespace).reverse⟩

/-- `DELIMITER in name` — substring test; the delimiter is one character. -/
def hasDelim (s : String) : Bool := decide (DELIMITER ∈ s.data)

/-- Helper for `splitFirst`: split a character list at the first delimiter. -/
def splitFirstAux : List Char → Option (List Char × List Char)
  | [] => none
  | c :: cs =>
    if c = DELIMITER then some ([], cs)
    else (splitFirstAux cs).map (fun p => (c :: p.1, p.2))

/-- Python `name.split(DELIMITER, 1)`, used only under a `hasDelim` guard.
If the delimiter does not occur we return `(s, "")` (the guarded code never
looks at this case). -/
def splitFirst (s : String) : String × String :=
  match splitFirstAux s.data with
  | some p => (⟨p.1⟩, ⟨p.2⟩)
  | none => (s, "")

/-- Helper for `splitOnChar`. -/
def splitOnCharAux (c : Char) : List Char → List Char × List (List Char)
  | [] => ([], [])
  | x :: xs =>
    let r := splitOnCharAux c xs
    if x = c then ([], r.1 :: r.2) else (x :: r.1, r.2)

/-- Split a character list on every occurrence of `c`. -/
def splitOnChar (c : Char) (l : List Char) : List (List Char) :=
  (splitOnCharAux c l).1 :: (splitOnCharAux c l).2

/-- `pathlib` path-join with one textual segment: the segment is split on
`/` and empty parts are dropped (`Path('a') / 'b/c'` has parts `a b c`,
`Path('a') / ''` is `Path('a')`). -/
def pathJoin (base : List String) (s : String) : List String :=
  base ++ (splitOnChar '/' s.data).filterMap (fun l => if l = [] then none else some ⟨l⟩)

/-- `Path.name` of a path given by its components. -/
def entryName (p : List String) : String := p.getLastD ""

/-- Boolean prefix test on component lists. -/
def isPre {α : Type} [DecidableEq α] : List α → List α → Bool
  | [], _ => true
  | _ :: _, [] => false
  | a :: as, b :: bs => if a = b then isPre as bs else false

/-- Boolean contiguous-sublist (substring) test. -/
def hasInfixB {α : Type} [DecidableEq α] (pat : List α) : List α → Bool
  | [] => decide (pat = [])
  | c :: cs => isPre pat (c :: cs) || hasInfixB pat cs

/-! ## The filesystem model

Everything the registry touches lives under the project root; a state is
the list of existing files and directories, each a component path paired
with `true` for a directory, `false` for a plain file.  The list order is
the directory-iteration order (`Path.iterdir`). -/

/-- A filesystem state. -/
structure FS where
  entries : List (List String × Bool)
deriving DecidableEq, Repr

/-- `p.is_dir()`. -/
abbrev isDir (fs : FS) (p : List String) : Prop := (p, true) ∈ fs.entries

/-- `p.iterdir()`: the entries directly inside `p`, in list order. -/
def childrenOf (fs : FS) (p : List String) : List (List String × Bool) :=
  fs.entries.filter (fun e => e.1.length == p.length + 1 && isPre p e.1)

/-- Ensure a plain-file entry at `p` (appending it when absent). -/
def ensureFile (fs : FS) (p : List String) : FS :=
  if (p, false) ∈ fs.entries then fs else ⟨fs.entries ++ [(p, false)]⟩

/-- `open(p, "w")`: fails (`none`) when the parent directory is missing or
`p` is a directory; otherwise ensures a file entry at `p` (content is not
modelled — the claims never mention file contents). -/
def writeFileE (fs : FS) (p : List String) : Option FS :=
  if ¬ isDir fs p.dropLast then none
  else if (p, true) ∈ fs.entries then none
  else some (ensureFile fs p)

/-- `p.mkdir(parents=False, exist_ok=False)`: fails when `p` already
exists or the parent is missing. -/
def mkdirE (fs : FS) (p : List String) : Option FS :=
  if (p, true) ∈ fs.entries ∨ (p, false) ∈ fs.entries then none
  else if ¬ isDir fs p.dropLast then none
  else some ⟨fs.entries ++ [(p, true)]⟩

/-- Replace the prefix `old` by `new` in a path (the effect of a directory
rename on each entry under it). -/
def repl (old new p : List String) : List String :=
  if isPre old p then new ++ p.drop old.length else p

/-- `old.rename(new)`: fails when `old` is missing or the target exists
(POSIX would allow renaming onto an *empty* directory, but every caller
below renames onto a fresh target, and onto-a-file always fails). -/
def renameFS (fs : FS) (old new : List String) : Option FS :=
  if ¬ ((old, true) ∈ fs.entries ∨ (old, false) ∈ fs.entries) then none
  else if new ≠ old ∧ ((new, true) ∈ fs.entries ∨ (new, false) ∈ fs.entries) then none
  else some ⟨fs.entries.map (fun e => (repl old new e.1, e.2))⟩

/-- Remove one entry (used by `unlink` / `rmdir`). -/
def removeEntry (fs : FS) (p : List String) (b : Bool) : FS :=
  ⟨fs.entries.filter (fun e => ¬ (e = (p, b)))⟩

/-- `p.rmdir()`: only an existing, empty directory can be removed. -/
def rmdirE (fs : FS) (p : List String) : Option FS :=
  if ¬ isDir fs p then none
  else if childrenOf fs p ≠ [] then none
  else some (removeEntry fs p true)

/-! ## The cleanup block of `_create_server_with_python`

```
try:
    if base_path.exists() and base_path.is_dir():
        for sub in base_path.iterdir():
            if sub.is_dir():
                for subsub in sub.iterdir():
                    subsub.unlink()
                sub.rmdir()
        base_path.rmdir()
except Exception:
    pass
```
`unlink` on a directory raises, `rmdir` on a non-empty directory raises;
the first exception aborts the whole block (mutations so far persist) and
is swallowed. -/

/-- `for subsub in sub.iterdir(): subsub.unlink()` — returns the state
reached and whether the loop finished without raising. -/
def unlinkKids (fs : FS) : List (List String × Bool) → FS × Bool
  | [] => (fs, true)
  | (_, true) :: _ => (fs, false)
  | (p, false) :: rest => unlinkKids (removeEntry fs p false) rest

/-- The `for sub in base_path.iterdir()` loop of the cleanup block. -/
def cleanupSubs : List (List String × Bool) → FS → FS × Bool
  | [], fs => (fs, true)
  | (p, true) :: rest, fs =>
    match unlinkKids fs (childrenOf fs p) with
    | (fs1, true) =>
      match rmdirE fs1 p with
      | some fs2 => cleanupSubs rest fs2
      | none => (fs1, false)
    | (fs1, false) => (fs1, false)
  | (_, false) :: rest, fs => cleanupSubs rest fs

/-- The whole best-effort cleanup block. -/
def cleanupDir (fs : FS) (base : List String) : FS :=
  if isDir fs base then
    match cleanupSubs (childrenOf fs base) fs with
    | (fs1, true) =>
      match rmdirE fs1 base with
      | some fs2 => fs2
      | none => fs1
    | (fs1, false) => fs1
  else fs

/-! ## `KherimoyaServer` -/

/-- The in-memory entity: `_name`, `_server_id`, `_path`, `_exists`,
`_running` of `KherimoyaServer` (`exists` is a Lean keyword, hence `exs`). -/
structure KServer where
  name : String
  server_id : Option String
  path : List String
  exs : Bool
  running : Bool
deriving DecidableEq, Repr

/-- The path the constructor computes:
`project_path / "servers" / f"{name}{DELIMITER}{server_id}"` (or without
the id part when it is `None`). -/
def mkPath (name : String) : Option String → List String
  | some i => pathJoin ["servers"] (name ++ "@" ++ i)
  | none => pathJoin ["servers"] name

/-- `KherimoyaServer.__init__(project_path, name, server_id)`; the project
path is the root `[]` of every path in the model. -/
def mkKServer (fs : FS) (name : String) (server_id : Option String) : KServer :=
  if isDir fs (mkPath name server_id) then
    if hasDelim (entryName (mkPath name server_id)) then
      ⟨(splitFirst (entryName (mkPath name server_id))).1,
        some (splitFirst (entryName (mkPath name server_id))).2,
        mkPath name server_id, true, false⟩
    else
      ⟨entryName (mkPath name server_id), none, mkPath name server_id, true, false⟩
  else
    ⟨name, server_id, mkPath name server_id, false, false⟩

/-- The errors `refresh` can raise: `FileNotFoundError`,
`ServerNotInPathError`, `ImproperServerError`, and an I/O error from the
`server.json` write. -/
inductive RefreshErr where
  | fileNotFound
  | serverNotInPath
  | improperServer
  | ioError
deriving DecidableEq, Repr

/-- Result of `refresh`: the (possibly mutated) entity, the filesystem,
and the exception if one was raised — Python mutates `self` in place, so
mutations made before a `raise` persist. -/
structure RRes where
  server : KServer
  fs : FS
  err : Option RefreshErr
deriving DecidableEq, Repr

/-- `KherimoyaServer.refresh(path)`. -/
def refresh (s0 : KServer) (fs : FS) (path : List String) : RRes :=
  let s := if s0.exs then s0 else { s0 with server_id := none }
  if isDir fs path then
    if entryName path.dropLast ≠ "servers" then ⟨s, fs, some .serverNotInPath⟩
    else if ¬ hasDelim (entryName path) then ⟨s, fs, some .improperServer⟩
    else
      let pr := splitFirst (entryName path)
      let s1 := { s with path := path, name := pr.1, server_id := some pr.2 }
      if isDir fs s1.path then
        let s2 := { s1 with exs := true, running := false }
        match writeFileE fs (path ++ ["server.json"]) with
        | some fs1 => ⟨s2, fs1, none⟩
        | none => ⟨s2, fs, some .ioError⟩
      else ⟨{ s1 with exs := false, server_id := none }, fs, none⟩
  else
    if isDir fs s.path then ⟨s, fs, none⟩
    else ⟨{ s with server_id := none }, fs, some .fileNotFound⟩

/-! ## Enumeration (`ServerManager._list_servers` and wrappers) -/

/-- `_list_servers()` with the default tuple shape: scan `servers/`,
skip non-directories, skip folders without the delimiter, split the rest. -/
def listServers (fs : FS) : List (String × String) :=
  if isDir fs ["servers"] then
    (childrenOf fs ["servers"]).filterMap (fun e =>
      if e.2 then
        if hasDelim (entryName e.1) then some (splitFirst (entryName e.1)) else none
      else none)
  else []

/-- `list_server_names()`. -/
def listServerNames (fs : FS) : List String := (listServers fs).map Prod.fst

/-- `list_server_ids()` (every id produced by a split is a string). -/
def listServerIds (fs : FS) : List String := (listServers fs).map Prod.snd

/-- The delimiter-bearing directory names of `servers/`, in iteration
order (`listServers` is their image under `splitFirst`). -/
def enumDirs (fs : FS) : List String :=
  if isDir fs ["servers"] then
    (childrenOf fs ["servers"]).filterMap (fun e =>
      if e.2 then
        if hasDelim (entryName e.1) then some (entryName e.1) else none
      else none)
  else []

/-- The loop body of `list_server_objects`: construct, refresh, keep on
success, drop on exception; refreshes write `server.json`, so the
filesystem is threaded through. -/
def goObjs : List (String × String) → FS → List KServer × FS
  | [], fs => ([], fs)
  | (n, i) :: rest, fs =>
    let s0 := mkKServer fs n none
    let r := refresh s0 fs (pathJoin ["servers"] (n ++ "@" ++ i))
    match r.err with
    | none =>
      let t := goObjs rest r.fs
      (r.server :: t.1, t.2)
    | some _ => goObjs rest r.fs

/-- `list_server_objects()`. -/
def listServerObjects (fs : FS) : List KServer × FS := goObjs (listServers fs) fs

/-! ## Identifier allocation (`_generate_unique_id`) -/

/-- The random source: `secrets.choice(ALPHABET)` draws indexed by a
running counter, and the `uuid.uuid4()` strings of the fallback loop. -/
structure IdOracle where
  choice : Nat → Fin 36
  uuid : Nat → String

/-- `ALPHABET = "0123456789abcdefghijklmnopqrstuvwxyz"`. -/
def alphaChar (k : Fin 36) : Char :=
  "0123456789abcdefghijklmnopqrstuvwxyz".data.getD k.val ' '

/-- The characters of one random id of `groups` groups: groups of
`GROUP_SIZE = 4` alphabet draws joined by `'-'`
(`"-".join("".join(choice(ALPHABET) ...) ...)`). -/
def candChars (o : IdOracle) : Nat → Nat → List Char
  | _, 0 => []
  | start, g + 1 =>
    (List.range 4).map (fun j => alphaChar (o.choice (start + j))) ++
      (if g = 0 then [] else '-' :: candChars o (start + 4) g)

/-- `_random_id(groups)` at draw-counter `start`. -/
def randomId (o : IdOracle) (start groups : Nat) : String := ⟨candChars o start groups⟩

/-- Full match against `^[0-9a-z]{4}(?:-[0-9a-z]{4}){groups-1}$`. -/
def patternMatch (groups : Nat) (s : String) : Bool :=
  let parts := splitOnChar '-' s.data
  parts.length == groups &&
    parts.all (fun p => p.length == 4 &&
      p.all (fun c => "0123456789abcdefghijklmnopqrstuvwxyz".data.contains c))

/-- The random-try loop for one group count: up to `fuel` draws, each
advancing the counter by `4 * groups`; returns the first candidate not in
the existing set. -/
def tryRandom (o : IdOracle) (exset : List String) (groups : Nat) : Nat → Nat → Option String
  | _, 0 => none
  | start, fuel + 1 =>
    let cand := randomId o start groups
    if cand ∈ exset then tryRandom o exset groups (start + 4 * groups) fuel
    else some cand

/-- The `for groups in range(1, 10)` loop: skip a group count whose id
space is exhausted, otherwise try `maxTries` random draws. -/
def groupsLoop (o : IdOracle) (exset : List String) (maxTries : Nat) :
    Nat → List Nat → Option String
  | _, [] => none
  | start, g :: gs =>
    if (exset.filter (patternMatch g)).length ≥ 36 ^ (4 * g) then
      groupsLoop o exset maxTries start gs
    else
      match tryRandom o exset g start maxTries with
      | some c => some c
      | none => groupsLoop o exset maxTries (start + maxTries * (4 * g)) gs

/-- The `while True` uuid4 fallback, fuel-bounded to stay total. -/
def uuidLoop (o : IdOracle) (exset : List String) : Nat → Nat → Option String
  | _, 0 => none
  | k, fuel + 1 =>
    let cand := o.uuid k
    if lower cand ∈ exset then uuidLoop o exset (k + 1) fuel else some cand

/-- `_generate_unique_id(max_random_tries)`; `none` only when the
fuel-bounded uuid fallback runs dry. -/
def generateUniqueId (fs : FS) (o : IdOracle) (uuidFuel maxTries : Nat) : Option String :=
  let exset := ((listServerIds fs).map lower).dedup
  match groupsLoop o exset maxTries 0 [1, 2, 3, 4, 5, 6, 7, 8, 9] with
  | some c => some c
  | none => uuidLoop o exset 0 uuidFuel

/-! ## `resolve_id_conflicts` -/

/-- `f"{server.server_id}"` — Python renders `None` as the string
`"None"`. -/
def idStr : Option String → String
  | some i => i
  | none => "None"

/-- The loop of `resolve_id_conflicts`, over the snapshot object list.
Each `_generate_unique_id` call draws from its own oracle `os k`; an
unhandled exception (rename onto an existing target, refresh failure) or
exhausted fuel yields `none`. -/
def resolveGo (os : Nat → IdOracle) (uuidFuel maxTries : Nat) :
    List KServer → List String → FS → Bool → Nat → Option (Bool × FS)
  | [], _, fs, c, _ => some (c, fs)
  | s :: rest, seen, fs, c, k =>
    if lower (s.server_id.getD "") ∈ seen then
      match generateUniqueId fs (os k) uuidFuel maxTries with
      | none => none
      | some fresh =>
        let s1 := { s with server_id := some fresh }
        let np := pathJoin s1.path.dropLast (s1.name ++ "@" ++ idStr s1.server_id)
        match renameFS fs s1.path np with
        | none => none
        | some fs1 =>
          let r := refresh s1 fs1 np
          match r.err with
          | some _ => none
          | none => resolveGo os uuidFuel maxTries rest seen r.fs true (k + 1)
    else
      let seen1 := if s.server_id ≠ none then seen ++ [lower (s.server_id.getD "")] else seen
      resolveGo os uuidFuel maxTries rest seen1 fs c k

/-- `resolve_id_conflicts()`. -/
def resolveIdConflicts (os : Nat → IdOracle) (uuidFuel maxTries : Nat) (fs : FS) :
    Option (Bool × FS) :=
  let t := listServerObjects fs
  resolveGo os uuidFuel maxTries t.1 [] t.2 false 0

/-! ## `stop_server` (`_Actions`) -/

/-- `ServerDoesNotExistError`, `ServerNotRunningError`, `ServerStopError`. -/
inductive StopErr where
  | doesNotExist
  | notRunning
  | serverStop
deriving DecidableEq, Repr

/-- The session interactions `_stop_through_tmux` performs. -/
inductive SessAct where
  | findSession
  | sendStop
deriving DecidableEq, Repr

/-- `stop_server(method="tmux")`: `_checkserver(requires_exists=True,
requires_running=True)` first, then the tmux interaction.  The external
session lookup and transport are oracles; on success the performed
session interactions are returned. -/
def stopServer (s : KServer) (sessFound transportOk : Bool) : Except StopErr (List SessAct) :=
  if ¬ s.exs then .error .doesNotExist
  else if ¬ s.running then .error .notRunning
  else if ¬ transportOk then .error .serverStop
  else .ok ([.findSession] ++ if sessFound then [.sendStop] else [])

/-! ## `rename_server` -/

/-- `FileNotFoundError`, `ServerRenameError`, an OS error from
`Path.rename`, or a propagated `refresh` failure. -/
inductive RnErr where
  | fileNotFound
  | renameError
  | osError
  | refreshFailed (e : RefreshErr)
deriving DecidableEq, Repr

/-- Result of `rename_server` (entity mutated in place, as in `RRes`). -/
structure RnRes where
  server : KServer
  fs : FS
  err : Option RnErr
deriving DecidableEq, Repr

/-- `rename_server(server, new_name)`. -/
def renameServer (strict : Bool) (fs : FS) (s : KServer) (newName : String) : RnRes :=
  if ¬ (s.exs ∧ isDir fs s.path) then ⟨s, fs, some .fileNotFound⟩
  else if newName ∈ listServerNames fs ∧ strict then ⟨s, fs, some .renameError⟩
  else if pyStrip newName = "" then ⟨s, fs, some .renameError⟩
  else if '-' ∈ newName.data ∨ ':' ∈ newName.data ∨ '/' ∈ newName.data ∨
      '\\' ∈ newName.data ∨ DELIMITER ∈ newName.data then ⟨s, fs, some .renameError⟩
  else
    let np := pathJoin s.path.dropLast (newName ++ "@" ++ idStr s.server_id)
    match renameFS fs s.path np with
    | none => ⟨s, fs, some .osError⟩
    | some fs1 =>
      let r := refresh s fs1 np
      ⟨r.server, r.fs, r.err.map .refreshFailed⟩

/-! ## `create_server` / `_create_server_with_python` -/

/-- The exceptions of the creation flow: `FileExistsError`,
`ServerCreationError`, `TimeoutError`, `mkdir` errors, a propagated
`refresh` failure, write failures, `NotImplementedError`. -/
inductive CreateErr where
  | fileExists
  | serverCreation
  | timeoutError
  | mkdirFailed
  | refreshFailed (e : RefreshErr)
  | ioFailed
  | notImplemented
deriving DecidableEq, Repr

/-- One observation of the install-wait loop: whether
`server/worlds` exists, the elapsed time at the timeout check, the last
captured pane output, and whether the session is still listed. -/
structure PollObs where
  worlds : Bool
  elapsed : Nat
  output : String
  sessionAlive : Bool

/-- Outcome of the install-wait loop. -/
inductive LoopOut where
  | finished (fs : FS)
  | timedOut (fs : FS)
  | exited (fs : FS)
  | fuelOut

/-- `install_timeout is not None and (monotonic() - start) > install_timeout`. -/
def overTime : Option Nat → Nat → Bool
  | some t, e => decide (e > t)
  | none, _ => false

/-- The `while not Path(base_path / "server" / "worlds").is_dir()` loop:
timeout check (with cleanup), then the `__ENDSTONE_DONE__` /
session-vanished check (*without* cleanup). -/
def installLoop (timeout : Option Nat) (base : List String) (fs : FS) :
    List PollObs → LoopOut
  | [] => .fuelOut
  | obs :: rest =>
    if obs.worlds then .finished fs
    else if overTime timeout obs.elapsed then
      .timedOut (cleanupDir fs base)
    else if hasInfixB "__ENDSTONE_DONE__".data obs.output.data ∨ ¬ obs.sessionAlive then
      .exited fs
    else installLoop timeout base fs rest

/-- `_create_server_with_python(server, install_timeout)`.  `sessionOk`
is whether `tmux new_session` succeeds; `polls` drives the install-wait
loop.  The graceful-shutdown wait after the loop only sleeps (no state
effect) and is elided. -/
def createPy (fs : FS) (s : KServer) (o : IdOracle) (uuidFuel maxTries : Nat)
    (sessionOk : Bool) (timeout : Option Nat) (polls : List PollObs) :
    Option (FS × Except CreateErr KServer) :=
  match generateUniqueId fs o uuidFuel maxTries with
  | none => none
  | some fresh =>
    let s1 := { s with server_id := some fresh }
    let base := pathJoin ["servers"] (s1.name ++ "@" ++ fresh)
    match mkdirE fs base with
    | none => some (fs, .error .mkdirFailed)
    | some fsA =>
      match mkdirE fsA (base ++ ["config"]) with
      | none => some (fsA, .error .mkdirFailed)
      | some fsB =>
        match mkdirE fsB (base ++ ["extra"]) with
        | none => some (fsB, .error .mkdirFailed)
        | some fsC =>
          match mkdirE fsC (base ++ ["server"]) with
          | none => some (fsC, .error .mkdirFailed)
          | some fsD =>
            match mkdirE fsD (base ++ ["state"]) with
            | none => some (fsD, .error .mkdirFailed)
            | some fsE =>
              let r := refresh s1 fsE base
              match r.err with
              | some e => some (r.fs, .error (.refreshFailed e))
              | none =>
                let s2 := r.server
                if ¬ sessionOk then
                  some (cleanupDir r.fs base, .error .serverCreation)
                else
                  match installLoop timeout base r.fs polls with
                  | .fuelOut => none
                  | .timedOut fs1 => some (fs1, .error .timeoutError)
                  | .exited fs1 => some (fs1, .error .serverCreation)
                  | .finished fs1 =>
                    match writeFileE fs1 (base ++ ["state", "state.json"]) with
                    | none => some (fs1, .error .ioFailed)
                    | some fs2 =>
                      match writeFileE fs2 (base ++ ["kherimoya.yaml"]) with
                      | none => some (fs2, .error .ioFailed)
                      | some fs3 => some (fs3, .ok s2)

/-- The validation half of `create_server` shared by both input shapes. -/
def createServerChecked (strict : Bool) (fs : FS) (new : KServer) (o : IdOracle)
    (uuidFuel maxTries : Nat) (sessionOk : Bool) (timeout : Option Nat)
    (polls : List PollObs) : Option (FS × Except CreateErr KServer) :=
  if new.exs then some (fs, .error .serverCreation)
  else if new.name ∈ listServerNames fs ∧ strict then some (fs, .error .serverCreation)
  else if pyStrip new.name = "" then some (fs, .error .serverCreation)
  else if '-' ∈ new.name.data ∨ ':' ∈ new.name.data ∨ '/' ∈ new.name.data ∨
      '\\' ∈ new.name.data ∨ DELIMITER ∈ new.name.data then
    some (fs, .error .serverCreation)
  else createPy fs new o uuidFuel maxTries sessionOk timeout polls

/-- `create_server(server, install_timeout, method="python")`. -/
def createServer (strict : Bool) (fs : FS) (inp : String ⊕ KServer) (o : IdOracle)
    (uuidFuel maxTries : Nat) (sessionOk : Bool) (timeout : Option Nat)
    (polls : List PollObs) : Option (FS × Except CreateErr KServer) :=
  match inp with
  | .inr sv =>
    if sv.exs then some (fs, .error .fileExists)
    else createServerChecked strict fs sv o uuidFuel maxTries sessionOk timeout polls
  | .inl n =>
    createServerChecked strict fs (mkKServer fs n none) o uuidFuel maxTries sessionOk
      timeout polls

/-! ## Well-formed filesystem states and oracle hygiene -/

/-- States a real filesystem can be in: non-empty paths of non-empty,
slash-free components, no two entries at the same path, and every proper
prefix of an entry present as a directory. -/
def WF (fs : FS) : Prop :=
  (∀ e ∈ fs.entries, e.1 ≠ [] ∧ ∀ c ∈ e.1, c ≠ "" ∧ '/' ∉ c.data) ∧
  (fs.entries.map Prod.fst).Nodup ∧
  (∀ e ∈ fs.entries, ∀ k, k < e.1.length → 0 < k → (e.1.take k, true) ∈ fs.entries)

instance : DecidablePred WF := fun fs => by
  unfold WF
  exact inferInstance

/-- The uuid fallback never emits a path separator (real `uuid4` strings
are hex digits and hyphens). -/
def uuidOK (o : IdOracle) : Prop := ∀ m, '/' ∉ (o.uuid m).data

/-! ## Derived notions used to state and prove the registry properties -/

/-- The filesystem with every non-server folder (a `servers/` subdirectory
whose name has no delimiter) removed. -/
def stripNonServers (fs : FS) : FS :=
  ⟨fs.entries.filter (fun e =>
    !(e.2 && (e.1.length == 2) && isPre ["servers"] e.1 && !(hasDelim (entryName e.1))))⟩

/-- The metadata record `refresh` writes inside a server directory. -/
def jsonPath (d : String) : List String := ["servers", d, "server.json"]

/-- The entity a successful construct-plus-refresh yields for the server
directory `d`. -/
def objOf (d : String) : KServer :=
  ⟨(splitFirst d).1, some (splitFirst d).2, ["servers", d], true, false⟩

/-- The server directories whose `refresh` succeeds during enumeration
(no *directory* squatting on the `server.json` name inside them). -/
def visDirs (fs : FS) : List String :=
  (enumDirs fs).filter (fun d => !(decide ((jsonPath d, true) ∈ fs.entries)))

/-- Extend a state with the `server.json` records of the given server
directories (the filesystem effect of `list_server_objects`). -/
def jsonExtend (fs : FS) (ds : List String) : FS :=
  ds.foldl (fun f d => ensureFile f (jsonPath d)) fs

/-- The lowercased identifier of a server directory name. -/
def lowId (d : String) : String := lower (splitFirst d).2

end Kherimoya

namespace Kherimoya

/-! # Theorems

## String and character lemmas -/

theorem map_toLower_fixed (l : List Char) (h : ∀ c ∈ l, c.toLower = c) :
    l.map Char.toLower = l := by
  induction l with
  | nil => rfl
  | cons a t ih => simp_all

theorem alphaChar_toLower : ∀ k : Fin 36, (alphaChar k).toLower = alphaChar k := by decide

theorem alphaChar_ne_slash : ∀ k : Fin 36, alphaChar k ≠ '/' := by decide

theorem candChars_mem (o : IdOracle) :
    ∀ g start c, c ∈ candChars o start g → c = '-' ∨ ∃ k, c = alphaChar k := by
  intro g
  induction g with
  | zero => intro start c hc; simp [candChars] at hc
  | succ g ih =>
    intro start c hc
    simp only [candChars, List.mem_append, List.mem_map, List.mem_range] at hc
    rcases hc with ⟨j, _, rfl⟩ | hc
    · exact Or.inr ⟨_, rfl⟩
    · by_cases hg : g = 0
      · simp [hg] at hc
      · simp only [if_neg hg, List.mem_cons] at hc
        rcases hc with rfl | hc
        · exact Or.inl rfl
        · exact ih _ _ hc

theorem randomId_lower (o : IdOracle) (start g : Nat) :
    lower (randomId o start g) = randomId o start g := by
  unfold lower randomId
  congr 1
  refine map_toLower_fixed _ (fun c hc => ?_)
  rcases candChars_mem o g start c hc with rfl | ⟨k, rfl⟩
  · decide
  · exact alphaChar_toLower k

theorem randomId_no_slash (o : IdOracle) (start g : Nat) :
    '/' ∉ (randomId o start g).data := by
  intro h
  rcases candChars_mem o g start _ h with h' | ⟨k, h'⟩
  · exact absurd h' (by decide)
  · exact alphaChar_ne_slash k h'.symm

theorem tryRandom_spec (o : IdOracle) (exset : List String) (g : Nat) :
    ∀ fuel start c, tryRandom o exset g start fuel = some c →
      c ∉ exset ∧ lower c = c ∧ '/' ∉ c.data := by
  intro fuel
  induction fuel with
  | zero => intro start c h; simp [tryRandom] at h
  | succ fuel ih =>
    intro start c h
    simp only [tryRandom] at h
    split at h
    · exact ih _ _ h
    · cases h
      exact ⟨by assumption, randomId_lower o start g, randomId_no_slash o start g⟩

theorem groupsLoop_spec (o : IdOracle) (exset : List String) (mt : Nat) :
    ∀ gl start c, groupsLoop o exset mt start gl = some c →
      c ∉ exset ∧ lower c = c ∧ '/' ∉ c.data := by
  intro gl
  induction gl with
  | nil => intro start c h; simp [groupsLoop] at h
  | cons g gs ih =>
    intro start c h
    simp only [groupsLoop] at h
    split at h
    · exact ih _ _ h
    · cases htr : tryRandom o exset g start mt with
      | some c' => rw [htr] at h; cases h; exact tryRandom_spec o exset g mt start c htr
      | none => rw [htr] at h; exact ih _ _ h

theorem uuidLoop_spec (o : IdOracle) (exset : List String) :
    ∀ fuel k c, uuidLoop o exset k fuel = some c → lower c ∉ exset := by
  intro fuel
  induction fuel with
  | zero => intro k c h; simp [uuidLoop] at h
  | succ fuel ih =>
    intro k c h
    simp only [uuidLoop] at h
    split at h
    · exact ih _ _ h
    · cases h; assumption

theorem generate_fresh (fs : FS) (o : IdOracle) (uf mt : Nat) (r : String)
    (h : generateUniqueId fs o uf mt = some r) :
    lower r ∉ (listServerIds fs).map lower := by
  simp only [generateUniqueId] at h
  cases hg : groupsLoop o ((listServerIds fs).map lower).dedup mt 0 [1,2,3,4,5,6,7,8,9] with
  | some c =>
    rw [hg] at h; cases h
    obtain ⟨hne, hl, _⟩ := groupsLoop_spec o _ mt _ 0 r hg
    rw [hl]
    intro hm
    exact hne (List.mem_dedup.mpr hm)
  | none =>
    rw [hg] at h
    intro hm
    exact uuidLoop_spec o _ uf 0 r h (List.mem_dedup.mpr hm)

theorem generate_no_slash (fs : FS) (o : IdOracle) (uf mt : Nat) (r : String)
    (ho : uuidOK o) (h : generateUniqueId fs o uf mt = some r) : '/' ∉ r.data := by
  simp only [generateUniqueId] at h
  cases hg : groupsLoop o ((listServerIds fs).map lower).dedup mt 0 [1,2,3,4,5,6,7,8,9] with
  | some c =>
    rw [hg] at h; cases h
    exact (groupsLoop_spec o _ mt _ 0 r hg).2.2
  | none =>
    rw [hg] at h
    revert h
    generalize 0 = k
    induction uf generalizing k with
    | zero => intro h; simp [uuidLoop] at h
    | succ uf ih =>
      intro h
      simp only [uuidLoop] at h
      split at h
      · exact ih _ h
      · cases h; exact ho _

/-- **C1.** Whatever `_generate_unique_id` returns — on the random
base-36 path or on the uuid4 fallback — is not case-insensitively equal
to any identifier listed by `list_server_ids` at the time of the call. -/
theorem c1_generate_unique_id_fresh (fs : FS) (o : IdOracle) (uf mt : Nat) (r : String)
    (h : generateUniqueId fs o uf mt = some r) :
    ∀ e ∈ listServerIds fs, lower r ≠ lower e := by
  intro e he heq
  exact generate_fresh fs o uf mt r h (heq ▸ List.mem_map_of_mem lower he)

/-- Witness for C1 at a concrete registry and oracle. -/
theorem c1_witness :
    generateUniqueId (FS.mk [(["servers"], true), (["servers", "A@ab12"], true)])
        (IdOracle.mk (fun _ => (35 : Fin 36)) (fun _ => "u")) 1 1000 = some "zzzz" ∧
      ∀ e ∈ listServerIds (FS.mk [(["servers"], true), (["servers", "A@ab12"], true)]),
        lower "zzzz" ≠ lower e :=
  ⟨by decide,
    c1_generate_unique_id_fresh (FS.mk [(["servers"], true), (["servers", "A@ab12"], true)])
      (IdOracle.mk (fun _ => (35 : Fin 36)) (fun _ => "u")) 1 1000 "zzzz" (by decide)⟩

end Kherimoya

namespace Kherimoya

/-! ## Constructor facts -/

theorem mk_not_exs_eq (fs : FS) (n : String) (i : Option String)
    (h : (mkKServer fs n i).exs = false) :
    mkKServer fs n i = ⟨n, i, mkPath n i, false, false⟩ := by
  by_cases hd : isDir fs (mkPath n i)
  · exfalso
    unfold mkKServer at h
    rw [if_pos hd] at h
    split at h <;> simp at h
  · unfold mkKServer
    rw [if_neg hd]

theorem mk_running (fs : FS) (n : String) (i : Option String) :
    (mkKServer fs n i).running = false := by
  unfold mkKServer
  split
  · split <;> rfl
  · rfl

/-! ## C3: name validation happens before any filesystem mutation -/

/-- **C3.** `create_server` on an empty/whitespace-only name or a name
containing `-`, `:`, `/`, `\\` or the delimiter raises
`ServerCreationError`, and the filesystem it returns is exactly the one it
was given: no directory was created, no identifier-bearing state changed. -/
theorem c3_validation_no_mutation (strict : Bool) (fs : FS) (name : String)
    (o : IdOracle) (uf mt : Nat) (sessionOk : Bool) (timeout : Option Nat)
    (polls : List PollObs)
    (hbad : pyStrip name = "" ∨ '-' ∈ name.data ∨ ':' ∈ name.data ∨ '/' ∈ name.data ∨
      '\\' ∈ name.data ∨ DELIMITER ∈ name.data) :
    createServer strict fs (.inl name) o uf mt sessionOk timeout polls =
      some (fs, .error CreateErr.serverCreation) := by
  simp only [createServer, createServerChecked]
  by_cases h1 : (mkKServer fs name none).exs = true
  · rw [if_pos h1]
  · rw [if_neg h1]
    have hb : (mkKServer fs name none).exs = false := by
      revert h1; cases (mkKServer fs name none).exs <;> simp
    have hname : (mkKServer fs name none).name = name := by
      rw [mk_not_exs_eq fs name none hb]
    by_cases h2 : (mkKServer fs name none).name ∈ listServerNames fs ∧ strict = true
    · rw [if_pos h2]
    · rw [if_neg h2]
      by_cases h3 : pyStrip (mkKServer fs name none).name = ""
      · rw [if_pos h3]
      · rw [if_neg h3, if_pos ?_]
        rw [hname]
        rcases hbad with hbad | hbad
        · rw [hname] at h3; exact absurd hbad h3
        · exact hbad

/-- Witness for C3: `create_server("a-b")` on a registry with an empty
`servers/` directory. -/
theorem c3_witness :
    createServer true (FS.mk [(["servers"], true)]) (.inl "a-b")
        (IdOracle.mk (fun _ => (0 : Fin 36)) (fun _ => "u")) 1 1000 true (some 300) [] =
      some (FS.mk [(["servers"], true)], .error CreateErr.serverCreation) :=
  c3_validation_no_mutation true (FS.mk [(["servers"], true)]) "a-b"
    (IdOracle.mk (fun _ => (0 : Fin 36)) (fun _ => "u")) 1 1000 true (some 300) []
    (by decide)

/-! ## C8: `stop_server` preconditions -/

/-- **C8.** `stop_server` demands existence and running state before any
session interaction: a non-existing entity yields
`ServerDoesNotExistError` and an existing but not-running entity yields
`ServerNotRunningError`, whatever the external session oracles say (so no
interaction can have taken place). -/
theorem c8_stop_requires_exists_running (s : KServer) (sessFound transportOk : Bool) :
    (s.exs = false → stopServer s sessFound transportOk = .error .doesNotExist) ∧
      (s.exs = true → s.running = false →
        stopServer s sessFound transportOk = .error .notRunning) := by
  constructor
  · intro h; simp [stopServer, h]
  · intro h hr; simp [stopServer, h, hr]

/-- Witness for C8 on concrete entities. -/
theorem c8_witness :
    stopServer ⟨"A", none, ["servers", "A"], false, false⟩ true true =
        .error .doesNotExist ∧
      stopServer ⟨"A", some "1", ["servers", "A@1"], true, false⟩ true true =
        .error .notRunning :=
  ⟨(c8_stop_requires_exists_running ⟨"A", none, ["servers", "A"], false, false⟩ true true).1
      rfl,
    (c8_stop_requires_exists_running ⟨"A", some "1", ["servers", "A@1"], true, false⟩
      true true).2 rfl rfl⟩

/-! ## C6: stale refresh -/

/-- Counterexample to C6 as stated: an entity whose `exists` flag is true
but whose own directory has meanwhile vanished.  `refresh` on a
non-directory target then *raises* `FileNotFoundError` (and clears the
identifier) instead of returning unchanged. -/
theorem c6_counterexample :
    (refresh
        (mkKServer (FS.mk [(["servers"], true), (["servers", "A@1"], true)]) "A" (some "1"))
        (FS.mk [(["servers"], true)]) ["servers", "B@2"]).err = some RefreshErr.fileNotFound ∧
      (mkKServer (FS.mk [(["servers"], true), (["servers", "A@1"], true)]) "A"
          (some "1")).exs = true ∧
      (refresh
          (mkKServer (FS.mk [(["servers"], true), (["servers", "A@1"], true)]) "A" (some "1"))
          (FS.mk [(["servers"], true)]) ["servers", "B@2"]).server.server_id ≠
        (mkKServer (FS.mk [(["servers"], true), (["servers", "A@1"], true)]) "A"
          (some "1")).server_id := by
  refine ⟨rfl, rfl, ?_⟩
  decide

/-- **C6 (amended).** The stale-refresh no-op holds when the entity's own
current path is still a directory: then `refresh` with a non-directory
target returns without error and changes nothing.  (When the old path is
gone too, `refresh` clears the identifier and raises `FileNotFoundError`
— see the counterexample.) -/
theorem c6_stale_refresh_amended (s : KServer) (fs : FS) (p : List String)
    (hex : s.exs = true) (hold : isDir fs s.path) (hp : ¬ isDir fs p) :
    refresh s fs p = ⟨s, fs, none⟩ := by
  simp only [refresh, hex, if_true]
  rw [if_neg hp, if_pos hold]

/-- Witness for C6 (amended) at a concrete entity and filesystem. -/
theorem c6_witness :
    refresh (KServer.mk "A" (some "1") ["servers", "A@1"] true false)
        (FS.mk [(["servers"], true), (["servers", "A@1"], true)]) ["servers", "B@2"] =
      ⟨KServer.mk "A" (some "1") ["servers", "A@1"] true false,
        FS.mk [(["servers"], true), (["servers", "A@1"], true)], none⟩ :=
  c6_stale_refresh_amended (KServer.mk "A" (some "1") ["servers", "A@1"] true false)
    (FS.mk [(["servers"], true), (["servers", "A@1"], true)]) ["servers", "B@2"]
    rfl (by decide) (by decide)

/-! ## C10: the `running` flag -/

/-- Counterexample to C10 as stated: on a *non-existing* entity
`stop_server` raises `ServerDoesNotExistError`, not
`ServerNotRunningError`. -/
theorem c10_counterexample :
    stopServer ⟨"A", none, ["servers", "A"], false, false⟩ true true =
        .error StopErr.doesNotExist ∧
      StopErr.doesNotExist ≠ StopErr.notRunning :=
  ⟨rfl, by decide⟩

/-- Preservation of `running = false` through `refresh`. -/
theorem refresh_running (s : KServer) (fs : FS) (p : List String)
    (h : s.running = false) : ((refresh s fs p).server).running = false := by
  simp only [refresh]
  repeat' split
  all_goals simp_all

/-- A successful `_create_server_with_python` returns the entity produced
by `refresh` against the new directory, whose `running` flag is false. -/
theorem createPy_ok_running (fs : FS) (s : KServer) (o : IdOracle) (uf mt : Nat)
    (sessionOk : Bool) (timeout : Option Nat) (polls : List PollObs) (fs1 : FS)
    (sv : KServer) (h : s.running = false)
    (hc : createPy fs s o uf mt sessionOk timeout polls = some (fs1, .ok sv)) :
    sv.running = false := by
  simp only [createPy] at hc
  split at hc
  · simp at hc
  · split at hc
    · simp at hc
    · split at hc
      · simp at hc
      · split at hc
        · simp at hc
        · split at hc
          · simp at hc
          · split at hc
            · simp at hc
            · split at hc
              · simp at hc
              · split at hc
                · simp at hc
                · split at hc
                  · simp at hc
                  · simp at hc
                  · simp at hc
                  · split at hc
                    · simp at hc
                    · split at hc
                      · simp at hc
                      · simp only [Option.some_inj, Prod.mk.injEq,
                          Except.ok.injEq] at hc
                        exact hc.2 ▸ refresh_running _ _ _ h

/-- **C10 (amended).** `running` is `false` after construction, is kept
`false` by `refresh` and `rename_server`, and a successfully created
server has `running = false`; no operation ever sets it to `true`.
Consequently `stop_server` never reaches the session-stop path: it raises
`ServerDoesNotExistError` on non-existing entities and
`ServerNotRunningError` on existing ones. -/
theorem c10_running_invariant :
    (∀ fs n i, (mkKServer fs n i).running = false) ∧
      (∀ s fs p, s.running = false → ((refresh s fs p).server).running = false) ∧
      (∀ strict fs s n, s.running = false →
        ((renameServer strict fs s n).server).running = false) ∧
      (∀ fs s o uf mt sessionOk timeout polls fs1 sv, s.running = false →
        createPy fs s o uf mt sessionOk timeout polls = some (fs1, .ok sv) →
        sv.running = false) ∧
      (∀ s sessFound transportOk, s.running = false →
        stopServer s sessFound transportOk =
          .error (if s.exs then StopErr.notRunning else StopErr.doesNotExist)) := by
  refine ⟨mk_running, refresh_running, ?_, createPy_ok_running, ?_⟩
  · intro strict fs s n h
    simp only [renameServer]
    repeat' split
    all_goals first
      | exact h
      | exact refresh_running _ _ _ h
  · intro s sessFound transportOk h
    by_cases he : s.exs
    · simp [stopServer, he, h]
    · simp [stopServer, he]

/-- Witness for C10 at concrete entities. -/
theorem c10_witness :
    (mkKServer (FS.mk []) "A" none).running = false ∧
      ((refresh (KServer.mk "A" (some "1") ["servers", "A@1"] true false)
          (FS.mk [(["servers"], true)]) ["servers", "A@1"]).server).running = false ∧
      stopServer (KServer.mk "B" (some "2") ["servers", "B@2"] true false) true true =
        .error (if (KServer.mk "B" (some "2") ["servers", "B@2"] true false).exs then
          StopErr.notRunning else StopErr.doesNotExist) :=
  ⟨c10_running_invariant.1 (FS.mk []) "A" none,
    c10_running_invariant.2.1 (KServer.mk "A" (some "1") ["servers", "A@1"] true false)
      (FS.mk [(["servers"], true)]) ["servers", "A@1"] rfl,
    c10_running_invariant.2.2.2.2 (KServer.mk "B" (some "2") ["servers", "B@2"] true false)
      true true rfl⟩

end Kherimoya

namespace Kherimoya

/-! ## Path and split lemmas -/

theorem splitOnCharAux_of_not_mem (c : Char) :
    ∀ l : List Char, c ∉ l → splitOnCharAux c l = (l, []) := by
  intro l
  induction l with
  | nil => intro _; rfl
  | cons x xs ih =>
    intro h
    have hx : ¬ x = c := fun hh => h (hh ▸ List.mem_cons_self x xs)
    have hxs : c ∉ xs := fun hh => h (List.mem_cons_of_mem x hh)
    simp [splitOnCharAux, hx, ih hxs]

theorem splitOnChar_of_not_mem (c : Char) (l : List Char) (h : c ∉ l) :
    splitOnChar c l = [l] := by
  simp [splitOnChar, splitOnCharAux_of_not_mem c l h]

theorem string_mk_data (s : String) : String.mk s.data = s := rfl

theorem pathJoin_single (b : List String) (s : String) (h1 : '/' ∉ s.data)
    (h2 : s ≠ "") : pathJoin b s = b ++ [s] := by
  have hd : s.data ≠ [] := by
    intro hh
    exact h2 (by cases s; simp_all)
  simp [pathJoin, splitOnChar_of_not_mem '/' s.data h1, hd, string_mk_data]

theorem splitFirstAux_spec :
    ∀ l : List Char, DELIMITER ∈ l →
      ∃ a b, splitFirstAux l = some (a, b) ∧ l = a ++ DELIMITER :: b ∧ DELIMITER ∉ a := by
  intro l
  induction l with
  | nil => intro h; simp at h
  | cons c cs ih =>
    intro h
    by_cases hc : c = DELIMITER
    · exact ⟨[], cs, by simp [splitFirstAux, hc], by simp [hc], by simp⟩
    · have hcs : DELIMITER ∈ cs := by
        rcases List.mem_cons.mp h with h1 | h1
        · exact absurd h1.symm hc
        · exact h1
      obtain ⟨a, b, ha, hl, hna⟩ := ih hcs
      refine ⟨c :: a, b, ?_, ?_, ?_⟩
      · simp [splitFirstAux, hc, ha]
      · simp [hl]
      · intro hh
        rcases List.mem_cons.mp hh with h1 | h1
        · exact hc h1.symm
        · exact hna h1

theorem splitFirstAux_append (a b : List Char) (h : DELIMITER ∉ a) :
    splitFirstAux (a ++ DELIMITER :: b) = some (a, b) := by
  induction a with
  | nil => simp [splitFirstAux]
  | cons c cs ih =>
    have hc : ¬ c = DELIMITER := fun hh => h (hh ▸ List.mem_cons_self c cs)
    have hcs : DELIMITER ∉ cs := fun hh => h (List.mem_cons_of_mem c hh)
    simp [splitFirstAux, hc, ih hcs]

theorem str_ext {s t : String} (h : s.data = t.data) : s = t := by
  cases s; cases t; cases h; rfl

theorem splitFirst_append_eq (d : String) (h : hasDelim d = true) :
    (splitFirst d).1 ++ "@" ++ (splitFirst d).2 = d ∧
      DELIMITER ∉ ((splitFirst d).1).data := by
  have hm : DELIMITER ∈ d.data := by simpa [hasDelim] using h
  obtain ⟨a, b, ha, hl, hna⟩ := splitFirstAux_spec d.data hm
  constructor
  · have h1 : (splitFirst d).1 = String.mk a := by simp [splitFirst, ha]
    have h2 : (splitFirst d).2 = String.mk b := by simp [splitFirst, ha]
    rw [h1, h2]
    apply str_ext
    rw [String.data_append, String.data_append, hl]
    show a ++ ['@'] ++ b = a ++ DELIMITER :: b
    simp [DELIMITER]
  · simp [splitFirst, ha, hna]

theorem splitFirst_mk (n i : String) (h : DELIMITER ∉ n.data) :
    splitFirst (n ++ "@" ++ i) = (n, i) := by
  have hdata : (n ++ "@" ++ i).data = n.data ++ DELIMITER :: i.data := by
    rw [String.data_append, String.data_append]
    show n.data ++ ['@'] ++ i.data = n.data ++ DELIMITER :: i.data
    simp [DELIMITER]
  unfold splitFirst
  rw [hdata, splitFirstAux_append n.data i.data h]

theorem hasDelim_concat (n i : String) : hasDelim (n ++ "@" ++ i) = true := by
  have hdata : (n ++ "@" ++ i).data = n.data ++ DELIMITER :: i.data := by
    rw [String.data_append, String.data_append]
    show n.data ++ ['@'] ++ i.data = n.data ++ DELIMITER :: i.data
    simp [DELIMITER]
  simp [hasDelim, hdata]

end Kherimoya

namespace Kherimoya

/-! ## Children and enumeration lemmas -/

theorem isPre_iff {α : Type} [DecidableEq α] :
    ∀ p q : List α, isPre p q = true ↔ p <+: q := by
  intro p
  induction p with
  | nil => intro q; simp [isPre]
  | cons a as ih =>
    intro q
    cases q with
    | nil => simp [isPre]
    | cons b bs =>
      by_cases hab : a = b
      · subst hab
        simp [isPre, ih bs, List.cons_prefix_cons]
      · simp [isPre, hab, List.cons_prefix_cons]

theorem pre2_eq (p : List String) (h2 : p.length = 2)
    (hp : isPre ["servers"] p = true) : p = ["servers", entryName p] := by
  match p, h2 with
  | [a, b], _ =>
    have h := (isPre_iff ["servers"] [a, b]).mp hp
    have ha : "servers" = a := (List.cons_prefix_cons.mp h).1
    subst ha
    rfl

theorem mem_childrenOf {fs : FS} {p : List String} {e : List String × Bool} :
    e ∈ childrenOf fs p ↔
      e ∈ fs.entries ∧ e.1.length = p.length + 1 ∧ isPre p e.1 = true := by
  simp [childrenOf, List.mem_filter]

theorem mem_enumDirs {fs : FS} {d : String} :
    d ∈ enumDirs fs ↔
      isDir fs ["servers"] ∧ (["servers", d], true) ∈ fs.entries ∧ hasDelim d = true := by
  unfold enumDirs
  by_cases hs : isDir fs ["servers"]
  · rw [if_pos hs]
    simp only [List.mem_filterMap, mem_childrenOf]
    constructor
    · rintro ⟨⟨e1, e2⟩, ⟨hm, hlen, hpre⟩, hfe⟩
      split at hfe
      · split at hfe
        · cases hfe
          have hshape := pre2_eq e1 (by simpa using hlen) hpre
          refine ⟨hs, ?_, by assumption⟩
          have he2t : e2 = true := by assumption
          rw [he2t] at hm
          rw [hshape] at hm
          exact hm
        · cases hfe
      · cases hfe
    · rintro ⟨-, hm, hd⟩
      refine ⟨(["servers", d], true), ⟨hm, rfl, by simp [isPre]⟩, ?_⟩
      have hen : entryName (["servers", d] : List String) = d := rfl
      simp [hen, hd]
  · rw [if_neg hs]
    simp only [List.not_mem_nil, false_iff]
    intro hh
    exact hs hh.1

theorem filterMap_map_split :
    ∀ l : List (List String × Bool),
      (l.filterMap (fun e =>
        if e.2 then
          if hasDelim (entryName e.1) then some (splitFirst (entryName e.1)) else none
        else none)) =
      (l.filterMap (fun e =>
        if e.2 then
          if hasDelim (entryName e.1) then some (entryName e.1) else none
        else none)).map splitFirst := by
  intro l
  induction l with
  | nil => rfl
  | cons e t ih =>
    by_cases h1 : e.2 = true
    · by_cases h2 : hasDelim (entryName e.1) = true
      · simp [List.filterMap_cons, h1, h2, ih]
      · simp [List.filterMap_cons, h1, h2, ih]
    · have h1f : e.2 = false := by revert h1; cases e.2 <;> simp
      simp [List.filterMap_cons, h1f, ih]

theorem listServers_eq_map (fs : FS) :
    listServers fs = (enumDirs fs).map splitFirst := by
  unfold listServers enumDirs
  by_cases hs : isDir fs ["servers"]
  · rw [if_pos hs, if_pos hs, filterMap_map_split]
  · rw [if_neg hs, if_neg hs]; rfl

theorem listServerIds_eq_map (fs : FS) :
    listServerIds fs = (enumDirs fs).map (fun d => (splitFirst d).2) := by
  unfold listServerIds
  rw [listServers_eq_map, List.map_map]
  rfl

theorem listServerNames_eq_map (fs : FS) :
    listServerNames fs = (enumDirs fs).map (fun d => (splitFirst d).1) := by
  unfold listServerNames
  rw [listServers_eq_map, List.map_map]
  rfl

end Kherimoya

namespace Kherimoya

/-! ## Characterisation of `refresh` and `list_server_objects` -/

theorem refresh_char (s : KServer) (fs : FS) (p : List String)
    (hdir : isDir fs p) (hpar : entryName p.dropLast = "servers")
    (hdel : hasDelim (entryName p) = true) :
    refresh s fs p =
      if (p ++ ["server.json"], true) ∈ fs.entries then
        ⟨⟨(splitFirst (entryName p)).1, some (splitFirst (entryName p)).2, p, true, false⟩,
          fs, some .ioError⟩
      else
        ⟨⟨(splitFirst (entryName p)).1, some (splitFirst (entryName p)).2, p, true, false⟩,
          ensureFile fs (p ++ ["server.json"]), none⟩ := by
  simp only [refresh]
  rw [if_pos hdir, if_neg (by simp [hpar]), if_neg (by simp [hdel]), if_pos hdir]
  unfold writeFileE
  rw [List.dropLast_concat]
  rw [if_neg (not_not_intro hdir)]
  by_cases hj : (p ++ ["server.json"], true) ∈ fs.entries
  · rw [if_pos hj, if_pos hj]
  · rw [if_neg hj, if_neg hj]

theorem jsonExtend_cons (fs : FS) (d : String) (ds : List String) :
    jsonExtend fs (d :: ds) = jsonExtend (ensureFile fs (jsonPath d)) ds := rfl

theorem jsonExtend_concat (fs : FS) (ds : List String) (d : String) :
    jsonExtend fs (ds ++ [d]) = ensureFile (jsonExtend fs ds) (jsonPath d) := by
  simp [jsonExtend, List.foldl_append]

theorem ensureFile_true_mem (fs : FS) (q p : List String) :
    ((q, true) ∈ (ensureFile fs p).entries ↔ (q, true) ∈ fs.entries) := by
  unfold ensureFile
  split
  · exact Iff.rfl
  · simp

theorem jsonExtend_true_mem (q : List String) :
    ∀ (ds : List String) (fs : FS),
      ((q, true) ∈ (jsonExtend fs ds).entries ↔ (q, true) ∈ fs.entries) := by
  intro ds
  induction ds with
  | nil => intro fs; exact Iff.rfl
  | cons d t ih =>
    intro fs
    rw [jsonExtend_cons]
    exact (ih _).trans (ensureFile_true_mem fs q (jsonPath d))

theorem goObjs_chars (fs0 : FS) :
    ∀ ds done : List String,
      (∀ d ∈ ds, (["servers", d], true) ∈ fs0.entries ∧ hasDelim d = true ∧
        d ≠ "" ∧ '/' ∉ d.data) →
      goObjs (ds.map splitFirst) (jsonExtend fs0 done) =
        ((ds.filter (fun d => !(decide ((jsonPath d, true) ∈ fs0.entries)))).map objOf,
          jsonExtend fs0
            (done ++ ds.filter (fun d => !(decide ((jsonPath d, true) ∈ fs0.entries))))) := by
  intro ds
  induction ds with
  | nil => intro done hall; simp [goObjs]
  | cons d rest ih =>
    intro done hall
    obtain ⟨hmem, hdel, hne, hns⟩ := hall d (List.mem_cons_self d rest)
    rcases hsp : splitFirst d with ⟨n, i⟩
    have happ : n ++ "@" ++ i = d := by
      have := (splitFirst_append_eq d hdel).1
      rwa [hsp] at this
    have hjoin : pathJoin ["servers"] (n ++ "@" ++ i) = ["servers", d] := by
      rw [happ]
      exact pathJoin_single _ _ hns hne
    have hdir : isDir (jsonExtend fs0 done) ["servers", d] :=
      (jsonExtend_true_mem _ done fs0).mpr hmem
    have hrest : ∀ d' ∈ rest, (["servers", d'], true) ∈ fs0.entries ∧ hasDelim d' = true ∧
        d' ≠ "" ∧ '/' ∉ d'.data := fun d' hd' => hall d' (List.mem_cons_of_mem d hd')
    rw [List.map_cons, hsp]
    simp only [goObjs]
    rw [hjoin, refresh_char _ _ _ hdir rfl hdel]
    by_cases hjd : (jsonPath d, true) ∈ fs0.entries
    · rw [if_pos (show ((["servers", d] : List String) ++ ["server.json"], true) ∈
        (jsonExtend fs0 done).entries from (jsonExtend_true_mem _ done fs0).mpr hjd)]
      dsimp only
      rw [ih done hrest]
      have hf : (d :: rest).filter (fun d => !(decide ((jsonPath d, true) ∈ fs0.entries))) =
          rest.filter (fun d => !(decide ((jsonPath d, true) ∈ fs0.entries))) := by
        simp [hjd]
      rw [hf]
    · rw [if_neg (show ¬ ((["servers", d] : List String) ++ ["server.json"], true) ∈
        (jsonExtend fs0 done).entries from
        fun hh => hjd ((jsonExtend_true_mem _ done fs0).mp hh))]
      dsimp only
      have hstep : ensureFile (jsonExtend fs0 done)
          ((["servers", d] : List String) ++ ["server.json"]) =
          jsonExtend fs0 (done ++ [d]) := (jsonExtend_concat fs0 done d).symm
      rw [hstep, ih (done ++ [d]) hrest]
      have hf : (d :: rest).filter (fun d => !(decide ((jsonPath d, true) ∈ fs0.entries))) =
          d :: rest.filter (fun d => !(decide ((jsonPath d, true) ∈ fs0.entries))) := by
        simp [hjd]
      rw [hf, List.append_assoc]
      rfl

theorem listServerObjects_char (fs : FS)
    (hcomp : ∀ e ∈ fs.entries, e.1 ≠ [] ∧ ∀ c ∈ e.1, c ≠ "" ∧ '/' ∉ c.data) :
    listServerObjects fs = ((visDirs fs).map objOf, jsonExtend fs (visDirs fs)) := by
  have hall : ∀ d ∈ enumDirs fs, (["servers", d], true) ∈ fs.entries ∧ hasDelim d = true ∧
      d ≠ "" ∧ '/' ∉ d.data := by
    intro d hd
    obtain ⟨-, hm, hdel⟩ := mem_enumDirs.mp hd
    have hc := (hcomp _ hm).2 d (by simp)
    exact ⟨hm, hdel, hc.1, hc.2⟩
  have h := goObjs_chars fs (enumDirs fs) [] hall
  unfold listServerObjects
  rw [listServers_eq_map]
  exact h

end Kherimoya

namespace Kherimoya

/-! ## C7: enumeration ignores folders without the delimiter -/

theorem filterMap_filter_of_none {α β : Type} (p : α → Bool) (f : α → Option β)
    (h : ∀ a, p a = false → f a = none) :
    ∀ l : List α, (l.filter p).filterMap f = l.filterMap f := by
  intro l
  induction l with
  | nil => rfl
  | cons a t ih =>
    cases hp : p a with
    | true => simp [List.filter_cons, hp, List.filterMap_cons, ih]
    | false => simp [List.filter_cons, hp, List.filterMap_cons, h a hp, ih]

theorem strip_servers_dir (fs : FS) :
    isDir (stripNonServers fs) ["servers"] ↔ isDir fs ["servers"] := by
  constructor
  · intro h
    exact (List.mem_filter.mp h).1
  · intro h
    exact List.mem_filter.mpr ⟨h, rfl⟩

theorem childrenOf_strip (fs : FS) (p : List String) :
    childrenOf (stripNonServers fs) p =
      (childrenOf fs p).filter (fun e =>
        !(e.2 && (e.1.length == 2) && isPre ["servers"] e.1 && !(hasDelim (entryName e.1)))) := by
  unfold childrenOf stripNonServers
  rw [List.filter_filter, List.filter_filter]
  exact List.filter_congr (fun a _ => Bool.and_comm _ _)

theorem listServers_strip (fs : FS) :
    listServers (stripNonServers fs) = listServers fs := by
  unfold listServers
  by_cases hs : isDir fs ["servers"]
  · rw [if_pos ((strip_servers_dir fs).mpr hs), if_pos hs, childrenOf_strip]
    apply filterMap_filter_of_none
    intro e he
    simp only [Bool.not_eq_false', Bool.and_eq_true, beq_iff_eq, Bool.not_eq_true'] at he
    obtain ⟨⟨⟨h2, hlen⟩, hpre⟩, hdel⟩ := he
    simp [h2, hdel]
  · rw [if_neg (fun hh => hs ((strip_servers_dir fs).mp hh)), if_neg hs]

theorem enumDirs_strip (fs : FS) :
    enumDirs (stripNonServers fs) = enumDirs fs := by
  unfold enumDirs
  by_cases hs : isDir fs ["servers"]
  · rw [if_pos ((strip_servers_dir fs).mpr hs), if_pos hs, childrenOf_strip]
    apply filterMap_filter_of_none
    intro e he
    simp only [Bool.not_eq_false', Bool.and_eq_true, beq_iff_eq, Bool.not_eq_true'] at he
    obtain ⟨⟨⟨h2, hlen⟩, hpre⟩, hdel⟩ := he
    simp [h2, hdel]
  · rw [if_neg (fun hh => hs ((strip_servers_dir fs).mp hh)), if_neg hs]

theorem strip_mem_len3 (fs : FS) (q : List String) (b : Bool) (hq : q.length = 3) :
    ((q, b) ∈ (stripNonServers fs).entries ↔ (q, b) ∈ fs.entries) := by
  unfold stripNonServers
  rw [List.mem_filter]
  constructor
  · exact And.left
  · intro h
    refine ⟨h, ?_⟩
    simp [hq]

theorem visDirs_strip (fs : FS) : visDirs (stripNonServers fs) = visDirs fs := by
  unfold visDirs
  rw [enumDirs_strip]
  apply List.filter_congr
  intro d _
  have h := strip_mem_len3 fs (jsonPath d) true rfl
  simp [h]

/-- **C7.** Enumeration returns no entry for a `servers/` subdirectory
whose name lacks the delimiter: removing all such folders from the state
changes none of the result shapes — the `(name, id)` pairs, the name
list, the id list, nor (on a well-formed filesystem) the entity list. -/
theorem c7_enumeration_ignores_nondelim (fs : FS) :
    listServers (stripNonServers fs) = listServers fs ∧
      listServerNames (stripNonServers fs) = listServerNames fs ∧
      listServerIds (stripNonServers fs) = listServerIds fs ∧
      (WF fs → (listServerObjects (stripNonServers fs)).1 = (listServerObjects fs).1) := by
  refine ⟨listServers_strip fs, ?_, ?_, ?_⟩
  · unfold listServerNames
    rw [listServers_strip]
  · unfold listServerIds
    rw [listServers_strip]
  · intro hwf
    have hall : ∀ d ∈ enumDirs (stripNonServers fs),
        (["servers", d], true) ∈ (stripNonServers fs).entries ∧ hasDelim d = true ∧
          d ≠ "" ∧ '/' ∉ d.data := by
      intro d hd
      obtain ⟨-, hm, hdel⟩ := mem_enumDirs.mp hd
      have hmfs : (["servers", d], true) ∈ fs.entries := (List.mem_filter.mp hm).1
      have hc := (hwf.1 _ hmfs).2 d (by simp)
      exact ⟨hm, hdel, hc.1, hc.2⟩
    have h1 := goObjs_chars (stripNonServers fs) (enumDirs (stripNonServers fs)) [] hall
    have hL : (listServerObjects (stripNonServers fs)).1 =
        (visDirs (stripNonServers fs)).map objOf := by
      show (goObjs (listServers (stripNonServers fs)) (stripNonServers fs)).1 =
        (visDirs (stripNonServers fs)).map objOf
      rw [listServers_eq_map]
      show (goObjs ((enumDirs (stripNonServers fs)).map splitFirst)
        (jsonExtend (stripNonServers fs) [])).1 = (visDirs (stripNonServers fs)).map objOf
      rw [h1]
      rfl
    rw [hL, visDirs_strip, listServerObjects_char fs hwf.1]

/-- Witness for C7 at a registry holding one real server and one
delimiter-free folder. -/
theorem c7_witness :
    listServers (stripNonServers (FS.mk [(["servers"], true), (["servers", "junk"], true),
        (["servers", "A@1"], true)])) =
      listServers (FS.mk [(["servers"], true), (["servers", "junk"], true),
        (["servers", "A@1"], true)]) ∧
    (listServerObjects (stripNonServers (FS.mk [(["servers"], true),
        (["servers", "junk"], true), (["servers", "A@1"], true)]))).1 =
      (listServerObjects (FS.mk [(["servers"], true), (["servers", "junk"], true),
        (["servers", "A@1"], true)])).1 :=
  ⟨(c7_enumeration_ignores_nondelim (FS.mk [(["servers"], true), (["servers", "junk"], true),
      (["servers", "A@1"], true)])).1,
    (c7_enumeration_ignores_nondelim (FS.mk [(["servers"], true), (["servers", "junk"], true),
      (["servers", "A@1"], true)])).2.2.2 (by decide)⟩

end Kherimoya

namespace Kherimoya

/-! ## Rename helpers -/

theorem isPre_refl {α : Type} [DecidableEq α] (l : List α) : isPre l l = true :=
  (isPre_iff l l).mpr (List.prefix_refl l)

theorem isPre_append {α : Type} [DecidableEq α] (l t : List α) :
    isPre l (l ++ t) = true :=
  (isPre_iff l (l ++ t)).mpr (l.prefix_append t)

theorem repl_of_append (old new t : List String) :
    repl old new (old ++ t) = new ++ t := by
  unfold repl
  rw [if_pos (isPre_append old t), List.drop_left]

theorem repl_self (old new : List String) : repl old new old = new := by
  have h := repl_of_append old new []
  simpa using h

theorem repl_of_not_pre (old new p : List String) (h : ¬ old <+: p) :
    repl old new p = p := by
  unfold repl
  rw [if_neg (fun hh => h ((isPre_iff old p).mp hh))]

theorem mem_renamed {fs : FS} {old new q : List String} {b : Bool} :
    ((q, b) ∈ (FS.mk (fs.entries.map (fun e => (repl old new e.1, e.2)))).entries ↔
      ∃ e ∈ fs.entries, repl old new e.1 = q ∧ e.2 = b) := by
  simp only [List.mem_map, Prod.mk.injEq]

theorem ne_empty_of_hasDelim (s : String) (h : hasDelim s = true) : s ≠ "" := by
  intro hh
  subst hh
  simp [hasDelim] at h

theorem no_slash_concat (a b : String) (ha : '/' ∉ a.data) (hb : '/' ∉ b.data) :
    '/' ∉ (a ++ "@" ++ b).data := by
  rw [String.data_append, String.data_append]
  intro h
  rcases List.mem_append.mp h with h1 | h1
  · rcases List.mem_append.mp h1 with h2 | h2
    · exact ha h2
    · simp at h2
  · exact hb h1

/-! ## C5: rename -/

/-- Counterexample to C5 as stated: an *existing* entity backed by a
delimiter-free directory has identifier `None`; renaming it succeeds but
turns the identifier into the literal string `"None"` (Python interpolates
`None` into the new directory name), so the identifier is not preserved. -/
theorem c5_counterexample :
    (mkKServer (FS.mk [(["servers"], true), (["servers", "foo"], true)]) "foo" none).exs =
        true ∧
      (mkKServer (FS.mk [(["servers"], true), (["servers", "foo"], true)]) "foo"
          none).server_id = none ∧
      (renameServer true (FS.mk [(["servers"], true), (["servers", "foo"], true)])
          (mkKServer (FS.mk [(["servers"], true), (["servers", "foo"], true)]) "foo" none)
          "bar").err = none ∧
      (renameServer true (FS.mk [(["servers"], true), (["servers", "foo"], true)])
          (mkKServer (FS.mk [(["servers"], true), (["servers", "foo"], true)]) "foo" none)
          "bar").server.server_id = some "None" := by
  decide

/-- **C5 (amended).** For an existing entity whose identifier is non-null
(and whose directory holds no directory named `server.json`), renaming to
a valid new name whose target directory `<newName>@<id>` is fresh (it
differs from the current directory name and nothing exists at the target
— both automatic under `strict_names`) preserves the identifier, sets the
name to the new name and the path to `servers/<newName>@<id>`, and
afterwards the old path is no longer a directory while the new one is. -/
theorem c5_rename_amended (strict : Bool) (fs : FS) (s : KServer) (newName dOld i : String)
    (hex : s.exs = true) (hdir : isDir fs s.path) (hpath : s.path = ["servers", dOld])
    (hid : s.server_id = some i) (hins : '/' ∉ i.data)
    (hnm1 : ¬ (newName ∈ listServerNames fs ∧ strict = true))
    (hnm2 : pyStrip newName ≠ "")
    (hnm3 : ¬ ('-' ∈ newName.data ∨ ':' ∈ newName.data ∨ '/' ∈ newName.data ∨
      '\\' ∈ newName.data ∨ DELIMITER ∈ newName.data))
    (hneq : newName ++ "@" ++ i ≠ dOld)
    (htgt : ∀ b, (["servers", newName ++ "@" ++ i], b) ∉ fs.entries)
    (hjsonOld : (["servers", dOld, "server.json"], true) ∉ fs.entries)
    (hjsonNew : (["servers", newName ++ "@" ++ i, "server.json"], true) ∉ fs.entries) :
    (renameServer strict fs s newName).err = none ∧
      (renameServer strict fs s newName).server.server_id = s.server_id ∧
      (renameServer strict fs s newName).server.name = newName ∧
      (renameServer strict fs s newName).server.path =
        ["servers", newName ++ "@" ++ i] ∧
      ¬ isDir (renameServer strict fs s newName).fs s.path ∧
      isDir (renameServer strict fs s newName).fs ["servers", newName ++ "@" ++ i] := by
  have hdel : hasDelim (newName ++ "@" ++ i) = true := hasDelim_concat newName i
  have hnsN : '/' ∉ newName.data := fun hh => hnm3 (Or.inr (Or.inr (Or.inl hh)))
  have hnslash : '/' ∉ (newName ++ "@" ++ i).data := no_slash_concat newName i hnsN hins
  have hne0 : newName ++ "@" ++ i ≠ "" := ne_empty_of_hasDelim _ hdel
  have hnp : pathJoin s.path.dropLast (newName ++ "@" ++ idStr s.server_id) =
      ["servers", newName ++ "@" ++ i] := by
    rw [hid, hpath]
    show pathJoin ["servers"] (newName ++ "@" ++ i) = ["servers", newName ++ "@" ++ i]
    exact pathJoin_single _ _ hnslash hne0
  have hnpne : (["servers", newName ++ "@" ++ i] : List String) ≠ s.path := by
    rw [hpath]
    intro hh
    simp only [List.cons.injEq] at hh
    exact hneq hh.2.1
  -- run the validation
  simp only [renameServer]
  rw [if_neg (by simp [hex, hdir]), if_neg hnm1, if_neg (fun hh => hnm2 hh),
    if_neg hnm3, hnp]
  -- the rename succeeds
  have hren : renameFS fs s.path ["servers", newName ++ "@" ++ i] =
      some (FS.mk (fs.entries.map
        (fun e => (repl s.path ["servers", newName ++ "@" ++ i] e.1, e.2)))) := by
    unfold renameFS
    rw [if_neg (not_not_intro (Or.inl hdir)),
      if_neg (by
        rintro ⟨-, hm | hm⟩
        · exact htgt true hm
        · exact htgt false hm)]
  rw [hren]
  dsimp only
  set fs1 : FS := FS.mk (fs.entries.map
    (fun e => (repl s.path ["servers", newName ++ "@" ++ i] e.1, e.2))) with hfs1
  -- the refresh succeeds and writes the metadata record
  have hdirNew : isDir fs1 ["servers", newName ++ "@" ++ i] := by
    rw [hfs1]
    exact mem_renamed.mpr ⟨(s.path, true), hdir, repl_self .., rfl⟩
  have hnoJson : ((["servers", newName ++ "@" ++ i] : List String) ++ ["server.json"], true)
      ∉ fs1.entries := by
    rw [hfs1]
    intro hm
    obtain ⟨⟨e1, e2⟩, he, h1, h2⟩ := mem_renamed.mp hm
    by_cases hpre : s.path <+: e1
    · obtain ⟨t, ht⟩ := hpre
      subst ht
      rw [repl_of_append] at h1
      have hteq : t = ["server.json"] := by
        have := List.append_inj_right h1 rfl
        simpa using this
      subst hteq
      have h2e : e2 = true := h2
      rw [h2e, hpath] at he
      exact hjsonOld (by simpa using he)
    · rw [repl_of_not_pre _ _ _ hpre] at h1
      have h2e : e2 = true := h2
      rw [h1, h2e] at he
      exact hjsonNew (by simpa using he)
  rw [refresh_char s fs1 _ hdirNew rfl (by simpa [entryName] using hdel)]
  rw [if_neg hnoJson]
  have hsplit : splitFirst (newName ++ "@" ++ i) = (newName, i) :=
    splitFirst_mk newName i (fun hh => hnm3 (Or.inr (Or.inr (Or.inr (Or.inr hh)))))
  refine ⟨rfl, ?_, ?_, ?_, ?_, ?_⟩
  · show some (splitFirst (entryName ["servers", newName ++ "@" ++ i])).2 = s.server_id
    rw [hid]
    show some (splitFirst (newName ++ "@" ++ i)).2 = some i
    rw [hsplit]
  · show (splitFirst (entryName ["servers", newName ++ "@" ++ i])).1 = newName
    show (splitFirst (newName ++ "@" ++ i)).1 = newName
    rw [hsplit]
  · rfl
  · -- the old path is gone
    show ¬ (s.path, true) ∈
      (ensureFile fs1 (["servers", newName ++ "@" ++ i] ++ ["server.json"])).entries
    rw [ensureFile_true_mem]
    rw [hfs1]
    intro hm
    obtain ⟨⟨e1, e2⟩, he, h1, h2⟩ := mem_renamed.mp hm
    by_cases hpre : s.path <+: e1
    · obtain ⟨t, ht⟩ := hpre
      subst ht
      rw [repl_of_append] at h1
      have hlen := congrArg List.length h1
      rw [hpath] at hlen
      simp at hlen
      rw [hlen] at h1
      simp at h1
      exact hnpne h1
    · rw [repl_of_not_pre _ _ _ hpre] at h1
      exact hpre (h1 ▸ List.prefix_refl e1)
  · show ((["servers", newName ++ "@" ++ i] : List String), true) ∈
      (ensureFile fs1 (["servers", newName ++ "@" ++ i] ++ ["server.json"])).entries
    rw [ensureFile_true_mem]
    exact hdirNew

/-- Witness for C5 (amended) at a concrete registry. -/
theorem c5_witness :
    (renameServer true (FS.mk [(["servers"], true), (["servers", "Alpha@ab12"], true)])
        (mkKServer (FS.mk [(["servers"], true), (["servers", "Alpha@ab12"], true)])
          "Alpha" (some "ab12")) "Beta").err = none ∧
      (renameServer true (FS.mk [(["servers"], true), (["servers", "Alpha@ab12"], true)])
          (mkKServer (FS.mk [(["servers"], true), (["servers", "Alpha@ab12"], true)])
            "Alpha" (some "ab12")) "Beta").server.server_id =
        (mkKServer (FS.mk [(["servers"], true), (["servers", "Alpha@ab12"], true)])
          "Alpha" (some "ab12")).server_id ∧
      ¬ isDir (renameServer true (FS.mk [(["servers"], true), (["servers", "Alpha@ab12"], true)])
          (mkKServer (FS.mk [(["servers"], true), (["servers", "Alpha@ab12"], true)])
            "Alpha" (some "ab12")) "Beta").fs
        (mkKServer (FS.mk [(["servers"], true), (["servers", "Alpha@ab12"], true)])
          "Alpha" (some "ab12")).path ∧
      isDir (renameServer true (FS.mk [(["servers"], true), (["servers", "Alpha@ab12"], true)])
          (mkKServer (FS.mk [(["servers"], true), (["servers", "Alpha@ab12"], true)])
            "Alpha" (some "ab12")) "Beta").fs ["servers", "Beta" ++ "@" ++ "ab12"] := by
  have h := c5_rename_amended true
    (FS.mk [(["servers"], true), (["servers", "Alpha@ab12"], true)])
    (mkKServer (FS.mk [(["servers"], true), (["servers", "Alpha@ab12"], true)])
      "Alpha" (some "ab12"))
    "Beta" "Alpha@ab12" "ab12"
    (by decide) (by decide) (by decide) (by decide) (by decide)
    (by decide) (by decide) (by decide) (by decide) (by decide) (by decide) (by decide)
  exact ⟨h.1, h.2.1, h.2.2.2.2.1, h.2.2.2.2.2⟩

end Kherimoya

namespace Kherimoya

/-! ## C2: cleanup after creation failures

The claim says the partially-created tree is best-effort deleted on
session-creation failure, installation timeout, and unexpected process
exit.  The code's cleanup block removes only the four empty
subdirectories: it never unlinks the plain `server.json` file that
`refresh` just wrote into the base directory, so `base_path.rmdir()`
always raises (swallowed), and the base directory survives every
"cleanup"; on unexpected process exit no cleanup is attempted at all. -/

/-- **C2 (bug evaluation).** On a fresh registry, `create_server("Alpha")`:
with tmux session creation failing, it raises `ServerCreationError` but
leaves `servers/Alpha@zzzz` (still a directory) containing `server.json`;
with an installation timeout it raises `TimeoutError` with the same
leftover; and when the `__ENDSTONE_DONE__` marker shows up in the pane
output it raises `ServerCreationError` leaving the *entire* skeleton in
place. -/
theorem c2_cleanup_bug :
    createServer true (FS.mk [(["servers"], true)]) (.inl "Alpha")
        (IdOracle.mk (fun _ => (35 : Fin 36)) (fun _ => "u")) 1 1000 false (some 300) [] =
      some (FS.mk [(["servers"], true), (["servers", "Alpha@zzzz"], true),
          (["servers", "Alpha@zzzz", "server.json"], false)],
        .error CreateErr.serverCreation) ∧
      createServer true (FS.mk [(["servers"], true)]) (.inl "Alpha")
          (IdOracle.mk (fun _ => (35 : Fin 36)) (fun _ => "u")) 1 1000 true (some 300)
          [PollObs.mk false 400 "" true] =
        some (FS.mk [(["servers"], true), (["servers", "Alpha@zzzz"], true),
            (["servers", "Alpha@zzzz", "server.json"], false)],
          .error CreateErr.timeoutError) ∧
      createServer true (FS.mk [(["servers"], true)]) (.inl "Alpha")
          (IdOracle.mk (fun _ => (35 : Fin 36)) (fun _ => "u")) 1 1000 true (some 300)
          [PollObs.mk false 1 "x __ENDSTONE_DONE__ y" true] =
        some (FS.mk [(["servers"], true), (["servers", "Alpha@zzzz"], true),
            (["servers", "Alpha@zzzz", "config"], true),
            (["servers", "Alpha@zzzz", "extra"], true),
            (["servers", "Alpha@zzzz", "server"], true),
            (["servers", "Alpha@zzzz", "state"], true),
            (["servers", "Alpha@zzzz", "server.json"], false)],
          .error CreateErr.serverCreation) ∧
      isDir (FS.mk [(["servers"], true), (["servers", "Alpha@zzzz"], true),
        (["servers", "Alpha@zzzz", "server.json"], false)]) ["servers", "Alpha@zzzz"] := by
  refine ⟨rfl, rfl, rfl, by decide⟩

end Kherimoya

namespace Kherimoya

/-! ## Effect of a directory rename on enumeration -/

theorem filterMap_congr_mem {α β : Type} (f g : α → Option β) :
    ∀ l : List α, (∀ a ∈ l, f a = g a) → l.filterMap f = l.filterMap g := by
  intro l
  induction l with
  | nil => intro _; rfl
  | cons a t ih =>
    intro h
    rw [List.filterMap_cons, List.filterMap_cons, h a (List.mem_cons_self a t),
      ih (fun x hx => h x (List.mem_cons_of_mem a hx))]

theorem pre2_iff (d x : String) : (["servers", d] <+: ["servers", x]) ↔ d = x := by
  constructor
  · intro h
    have h2 := (List.cons_prefix_cons.mp h).2
    exact (List.cons_prefix_cons.mp h2).1
  · rintro rfl
    exact List.prefix_refl _

theorem not_pre2_servers (d : String) : ¬ (["servers", d] <+: ["servers"]) := by
  intro h
  have := h.length_le
  simp at this

theorem childrenOf_renamed (fs : FS) (d dn : String) :
    childrenOf (FS.mk (fs.entries.map
        (fun e => (repl ["servers", d] ["servers", dn] e.1, e.2)))) ["servers"] =
      (childrenOf fs ["servers"]).map
        (fun e => (repl ["servers", d] ["servers", dn] e.1, e.2)) := by
  unfold childrenOf
  rw [List.filter_map]
  congr 1
  apply List.filter_congr
  intro e _
  show ((repl ["servers", d] ["servers", dn] e.1).length == 2 &&
      isPre ["servers"] (repl ["servers", d] ["servers", dn] e.1)) =
    (e.1.length == 2 && isPre ["servers"] e.1)
  by_cases hp : ["servers", d] <+: e.1
  · obtain ⟨t, ht⟩ := hp
    rw [← ht, repl_of_append]
    have hl : (["servers", dn] ++ t).length = (["servers", d] ++ t).length := by simp
    rw [hl]
    have hp1 : isPre ["servers"] (["servers", dn] ++ t) = true := by simp [isPre]
    have hp2 : isPre ["servers"] (["servers", d] ++ t) = true := by simp [isPre]
    rw [hp1, hp2]
  · rw [repl_of_not_pre _ _ _ hp]

theorem servers_dir_renamed (fs : FS) (d dn : String) :
    isDir (FS.mk (fs.entries.map
        (fun e => (repl ["servers", d] ["servers", dn] e.1, e.2)))) ["servers"] ↔
      isDir fs ["servers"] := by
  constructor
  · intro h
    obtain ⟨⟨e1, e2⟩, he, h1, h2⟩ := mem_renamed.mp h
    by_cases hp : ["servers", d] <+: e1
    · obtain ⟨t, ht⟩ := hp
      subst ht
      rw [repl_of_append] at h1
      have := congrArg List.length h1
      simp at this
    · rw [repl_of_not_pre _ _ _ hp] at h1
      have h2e : e2 = true := h2
      rw [h1, h2e] at he
      exact he
  · intro h
    exact mem_renamed.mpr ⟨(["servers"], true), h,
      repl_of_not_pre _ _ _ (not_pre2_servers d), rfl⟩

theorem enumDirs_renamed (fs : FS) (d dn : String) (hd : hasDelim d = true)
    (hdn : hasDelim dn = true) :
    enumDirs (FS.mk (fs.entries.map
        (fun e => (repl ["servers", d] ["servers", dn] e.1, e.2)))) =
      (enumDirs fs).map (fun x => if x = d then dn else x) := by
  unfold enumDirs
  by_cases hs : isDir fs ["servers"]
  · rw [if_pos ((servers_dir_renamed fs d dn).mpr hs), if_pos hs, childrenOf_renamed,
      List.filterMap_map, List.map_filterMap]
    apply filterMap_congr_mem
    intro e he
    obtain ⟨hm, hlen, hpre⟩ := mem_childrenOf.mp he
    have hshape := pre2_eq e.1 (by simpa using hlen) hpre
    show (if e.2 = true then
        if hasDelim (entryName (repl ["servers", d] ["servers", dn] e.1)) = true then
          some (entryName (repl ["servers", d] ["servers", dn] e.1)) else none
      else none) =
      Option.map (fun x => if x = d then dn else x)
        (if e.2 = true then
          if hasDelim (entryName e.1) = true then some (entryName e.1) else none
        else none)
    by_cases he2 : e.2 = true
    · by_cases hxd : entryName e.1 = d
      · have hrepl : repl ["servers", d] ["servers", dn] e.1 = ["servers", dn] := by
          rw [hshape, hxd]
          exact repl_self ..
        rw [hrepl]
        simp only [he2, if_true, hxd, hd]
        have h1 : hasDelim (entryName (["servers", dn] : List String)) = true := hdn
        rw [if_pos h1]
        simp [entryName]
      · have hnp : ¬ (["servers", d] <+: e.1) := by
          rw [hshape]
          intro hh
          exact hxd ((pre2_iff d (entryName e.1)).mp hh).symm
        rw [repl_of_not_pre _ _ _ hnp]
        simp only [he2, if_true]
        by_cases hdel : hasDelim (entryName e.1) = true
        · simp [hdel, hxd]
        · simp [hdel]
    · have h2f : e.2 = false := by revert he2; cases e.2 <;> simp
      simp [h2f]
  · rw [if_neg (fun hh => hs ((servers_dir_renamed fs d dn).mp hh)), if_neg hs]
    rfl

end Kherimoya

namespace Kherimoya

/-! ## Effect of a `servers/`-level rename on metadata records and visibility -/

theorem pre_json_iff (d x : String) :
    ((["servers", d] : List String) <+: jsonPath x) ↔ d = x := by
  unfold jsonPath
  constructor
  · intro h
    exact (List.cons_prefix_cons.mp (List.cons_prefix_cons.mp h).2).1
  · intro h
    subst h
    exact ⟨["server.json"], rfl⟩

theorem repl_jsonPath (d dn x : String) (hxd : x ≠ d) :
    repl ["servers", d] ["servers", dn] (jsonPath x) = jsonPath x :=
  repl_of_not_pre _ _ _ (fun h => hxd ((pre_json_iff d x).mp h).symm)

theorem repl_jsonPath_self (d dn : String) :
    repl ["servers", d] ["servers", dn] (jsonPath d) = jsonPath dn := by
  have h : jsonPath d = ["servers", d] ++ ["server.json"] := rfl
  rw [h, repl_of_append]
  rfl

theorem jsonPath_mem_renamed (fs : FS) (d dn x : String) (b : Bool)
    (hxd : x ≠ d) (hxdn : x ≠ dn) :
    ((jsonPath x, b) ∈ (FS.mk (fs.entries.map
        (fun e => (repl ["servers", d] ["servers", dn] e.1, e.2)))).entries ↔
      (jsonPath x, b) ∈ fs.entries) := by
  rw [mem_renamed]
  constructor
  · rintro ⟨⟨e1, e2⟩, he, h1, h2⟩
    by_cases hp : (["servers", d] : List String) <+: e1
    · exfalso
      obtain ⟨t, ht⟩ := hp
      subst ht
      rw [repl_of_append] at h1
      simp only [jsonPath, List.cons_append, List.nil_append, List.cons.injEq,
        true_and] at h1
      exact hxdn h1.1.symm
    · rw [repl_of_not_pre _ _ _ hp] at h1
      subst h1
      have h2e : e2 = b := h2
      subst h2e
      exact he
  · intro hm
    exact ⟨(jsonPath x, b), hm, repl_jsonPath d dn x hxd, rfl⟩

theorem jsonPath_dn_renamed_not_mem (fs : FS) (d dn : String)
    (hvisd : (jsonPath d, true) ∉ fs.entries)
    (hJ2 : ∀ x, (jsonPath x, true) ∈ fs.entries → (["servers", x], true) ∈ fs.entries)
    (htgt : (["servers", dn], true) ∉ fs.entries) :
    (jsonPath dn, true) ∉ (FS.mk (fs.entries.map
        (fun e => (repl ["servers", d] ["servers", dn] e.1, e.2)))).entries := by
  intro hm
  obtain ⟨⟨e1, e2⟩, he, h1, h2⟩ := mem_renamed.mp hm
  have h2e : e2 = true := h2
  subst h2e
  by_cases hp : (["servers", d] : List String) <+: e1
  · obtain ⟨t, ht⟩ := hp
    subst ht
    rw [repl_of_append] at h1
    simp only [jsonPath, List.cons_append, List.nil_append, List.cons.injEq, true_and] at h1
    have ht' : t = ["server.json"] := h1
    subst ht'
    exact hvisd he
  · rw [repl_of_not_pre _ _ _ hp] at h1
    subst h1
    exact htgt (hJ2 dn he)

theorem jsonPath_d_to_dn (fs : FS) (d dn : String) (b : Bool)
    (hm : (jsonPath d, b) ∈ fs.entries) :
    (jsonPath dn, b) ∈ (FS.mk (fs.entries.map
        (fun e => (repl ["servers", d] ["servers", dn] e.1, e.2)))).entries :=
  mem_renamed.mpr ⟨(jsonPath d, b), hm, repl_jsonPath_self d dn, rfl⟩

theorem J2_renamed (fs : FS) (d dn : String)
    (hold : (["servers", d], true) ∈ fs.entries)
    (hJ2 : ∀ x, (jsonPath x, true) ∈ fs.entries → (["servers", x], true) ∈ fs.entries) :
    ∀ x, (jsonPath x, true) ∈ (FS.mk (fs.entries.map
        (fun e => (repl ["servers", d] ["servers", dn] e.1, e.2)))).entries →
      (["servers", x], true) ∈ (FS.mk (fs.entries.map
        (fun e => (repl ["servers", d] ["servers", dn] e.1, e.2)))).entries := by
  intro x hm
  obtain ⟨⟨e1, e2⟩, he, h1, h2⟩ := mem_renamed.mp hm
  have h2e : e2 = true := h2
  subst h2e
  by_cases hp : (["servers", d] : List String) <+: e1
  · obtain ⟨t, ht⟩ := hp
    subst ht
    rw [repl_of_append] at h1
    simp only [jsonPath, List.cons_append, List.nil_append, List.cons.injEq, true_and] at h1
    have hdnx : dn = x := h1.1
    subst hdnx
    exact mem_renamed.mpr ⟨(["servers", d], true), hold, repl_self _ _, rfl⟩
  · rw [repl_of_not_pre _ _ _ hp] at h1
    subst h1
    refine mem_renamed.mpr ⟨(["servers", x], true), hJ2 x he, ?_, rfl⟩
    apply repl_of_not_pre
    intro hh
    have hdx : d = x := (pre2_iff d x).mp hh
    subst hdx
    exact hp ⟨["server.json"], rfl⟩

theorem mem_visDirs {fs : FS} {d : String} :
    d ∈ visDirs fs ↔ d ∈ enumDirs fs ∧ (jsonPath d, true) ∉ fs.entries := by
  simp [visDirs, List.mem_filter]

theorem visDirs_renamed (fs : FS) (d dn : String) (hd : hasDelim d = true)
    (hdn : hasDelim dn = true)
    (hvisd : (jsonPath d, true) ∉ fs.entries)
    (htgt : (["servers", dn], true) ∉ fs.entries)
    (hJ2 : ∀ x, (jsonPath x, true) ∈ fs.entries → (["servers", x], true) ∈ fs.entries) :
    visDirs (FS.mk (fs.entries.map
        (fun e => (repl ["servers", d] ["servers", dn] e.1, e.2)))) =
      (visDirs fs).map (fun x => if x = d then dn else x) := by
  unfold visDirs
  rw [enumDirs_renamed fs d dn hd hdn, List.filter_map]
  refine congrArg _ (List.filter_congr ?_)
  intro x hx
  have hxdn : x ≠ dn := fun hh => htgt (hh ▸ (mem_enumDirs.mp hx).2.1)
  by_cases hxd : x = d
  · subst hxd
    show (!decide ((jsonPath (if x = x then dn else x), true) ∈ (FS.mk (fs.entries.map
        (fun e => (repl ["servers", x] ["servers", dn] e.1, e.2)))).entries)) =
      (!decide ((jsonPath x, true) ∈ fs.entries))
    rw [if_pos rfl]
    have h1 := jsonPath_dn_renamed_not_mem fs x dn hvisd hJ2 htgt
    simp [h1, hvisd]
  · show (!decide ((jsonPath (if x = d then dn else x), true) ∈ (FS.mk (fs.entries.map
        (fun e => (repl ["servers", d] ["servers", dn] e.1, e.2)))).entries)) =
      (!decide ((jsonPath x, true) ∈ fs.entries))
    rw [if_neg hxd]
    rw [decide_eq_decide.mpr (jsonPath_mem_renamed fs d dn x true hxd hxdn)]

theorem comps_renamed (fs : FS) (d dn : String)
    (hc : ∀ e ∈ fs.entries, e.1 ≠ [] ∧ ∀ x ∈ e.1, x ≠ "" ∧ '/' ∉ x.data)
    (hdn1 : dn ≠ "") (hdn2 : '/' ∉ dn.data) :
    ∀ e ∈ (FS.mk (fs.entries.map
        (fun e => (repl ["servers", d] ["servers", dn] e.1, e.2)))).entries,
      e.1 ≠ [] ∧ ∀ x ∈ e.1, x ≠ "" ∧ '/' ∉ x.data := by
  intro e he
  obtain ⟨⟨e1, e2⟩, hm, heq⟩ := List.mem_map.mp he
  subst heq
  dsimp only
  unfold repl
  split
  · constructor
    · simp
    · intro x hx
      rcases List.mem_append.mp hx with h1 | h1
      · rcases List.mem_cons.mp h1 with h2 | h2
        · subst h2
          exact ⟨by decide, by decide⟩
        · rcases List.mem_cons.mp h2 with h3 | h3
          · subst h3
            exact ⟨hdn1, hdn2⟩
          · simp at h3
      · exact (hc _ hm).2 x (List.drop_subset _ _ h1)
  · exact hc _ hm

theorem nodup_map_subst (l : List String) (d dn : String) (hnd : l.Nodup)
    (hdn : dn ∉ l) : (l.map (fun x => if x = d then dn else x)).Nodup := by
  refine List.Nodup.map_on ?_ hnd
  intro x hx y hy hxy
  by_cases h1 : x = d <;> by_cases h2 : y = d
  · rw [h1, h2]
  · rw [if_pos h1, if_neg h2] at hxy
    subst hxy
    exact absurd hy hdn
  · rw [if_neg h1, if_pos h2] at hxy
    rw [hxy] at hx
    exact absurd hx hdn
  · rw [if_neg h1, if_neg h2] at hxy
    exact hxy

theorem map_subst_of_not_mem (l : List String) (d dn : String) (hd : d ∉ l) :
    l.map (fun x => if x = d then dn else x) = l := by
  induction l with
  | nil => rfl
  | cons a t ih =>
    rw [List.map_cons, if_neg (fun hh => hd (by rw [← hh]; exact List.mem_cons_self a t)),
      ih (fun hh => hd (List.mem_cons_of_mem a hh))]

end Kherimoya

namespace Kherimoya

/-! ## Stability of the registry under the `server.json` writes of
`list_server_objects`, and duplicate-freeness of the enumeration -/

theorem ensureFile_mem_mono (fs : FS) (p : List String) {q : List String × Bool}
    (h : q ∈ fs.entries) : q ∈ (ensureFile fs p).entries := by
  unfold ensureFile
  split
  · exact h
  · simp [h]

theorem ensureFile_self_mem (fs : FS) (p : List String) :
    (p, false) ∈ (ensureFile fs p).entries := by
  unfold ensureFile
  split
  · assumption
  · simp

theorem jsonExtend_mono {q : List String × Bool} :
    ∀ (ds : List String) (fs : FS), q ∈ fs.entries → q ∈ (jsonExtend fs ds).entries := by
  intro ds
  induction ds with
  | nil => intro fs h; exact h
  | cons d t ih =>
    intro fs h
    rw [jsonExtend_cons]
    exact ih _ (ensureFile_mem_mono _ _ h)

theorem jsonExtend_self_mem :
    ∀ (ds : List String) (fs : FS) (d : String), d ∈ ds →
      (jsonPath d, false) ∈ (jsonExtend fs ds).entries := by
  intro ds
  induction ds with
  | nil => intro fs d h; simp at h
  | cons a t ih =>
    intro fs d h
    rw [jsonExtend_cons]
    rcases List.mem_cons.mp h with h1 | h1
    · subst h1
      exact jsonExtend_mono t _ (ensureFile_self_mem fs (jsonPath d))
    · exact ih _ d h1

theorem jsonExtend_noop :
    ∀ (ds : List String) (fs : FS),
      (∀ d ∈ ds, (jsonPath d, false) ∈ fs.entries) → jsonExtend fs ds = fs := by
  intro ds
  induction ds with
  | nil => intro fs _; rfl
  | cons a t ih =>
    intro fs h
    rw [jsonExtend_cons]
    have ha : ensureFile fs (jsonPath a) = fs := by
      unfold ensureFile
      rw [if_pos (h a (List.mem_cons_self a t))]
    rw [ha]
    exact ih fs (fun d hd => h d (List.mem_cons_of_mem a hd))

theorem childrenOf_ensureFile_json (fs : FS) (x : String) :
    childrenOf (ensureFile fs (jsonPath x)) ["servers"] = childrenOf fs ["servers"] := by
  unfold ensureFile
  split
  · rfl
  · simp [childrenOf, List.filter_append, jsonPath]

theorem enumDirs_ensureFile_json (fs : FS) (x : String) :
    enumDirs (ensureFile fs (jsonPath x)) = enumDirs fs := by
  unfold enumDirs
  rw [childrenOf_ensureFile_json]
  by_cases hs : isDir fs ["servers"]
  · rw [if_pos ((ensureFile_true_mem fs ["servers"] (jsonPath x)).mpr hs), if_pos hs]
  · rw [if_neg (fun hh => hs ((ensureFile_true_mem fs ["servers"] (jsonPath x)).mp hh)),
      if_neg hs]

theorem enumDirs_jsonExtend :
    ∀ (ds : List String) (fs : FS), enumDirs (jsonExtend fs ds) = enumDirs fs := by
  intro ds
  induction ds with
  | nil => intro fs; rfl
  | cons a t ih =>
    intro fs
    rw [jsonExtend_cons, ih, enumDirs_ensureFile_json]

theorem visDirs_jsonExtend (ds : List String) (fs : FS) :
    visDirs (jsonExtend fs ds) = visDirs fs := by
  unfold visDirs
  rw [enumDirs_jsonExtend]
  refine List.filter_congr ?_
  intro x _
  rw [decide_eq_decide.mpr (jsonExtend_true_mem (jsonPath x) ds fs)]

theorem comps_ensureFile (fs : FS) (p : List String)
    (hc : ∀ e ∈ fs.entries, e.1 ≠ [] ∧ ∀ x ∈ e.1, x ≠ "" ∧ '/' ∉ x.data)
    (hp1 : p ≠ []) (hp2 : ∀ x ∈ p, x ≠ "" ∧ '/' ∉ x.data) :
    ∀ e ∈ (ensureFile fs p).entries, e.1 ≠ [] ∧ ∀ x ∈ e.1, x ≠ "" ∧ '/' ∉ x.data := by
  unfold ensureFile
  split
  · exact hc
  · intro e he
    rcases List.mem_append.mp he with h1 | h1
    · exact hc e h1
    · have he' : e = (p, false) := by simpa using h1
      subst he'
      exact ⟨hp1, hp2⟩

theorem comps_jsonExtend :
    ∀ (ds : List String) (fs : FS),
      (∀ e ∈ fs.entries, e.1 ≠ [] ∧ ∀ x ∈ e.1, x ≠ "" ∧ '/' ∉ x.data) →
      (∀ d ∈ ds, d ≠ "" ∧ '/' ∉ d.data) →
      ∀ e ∈ (jsonExtend fs ds).entries, e.1 ≠ [] ∧ ∀ x ∈ e.1, x ≠ "" ∧ '/' ∉ x.data := by
  intro ds
  induction ds with
  | nil => intro fs hc _; exact hc
  | cons a t ih =>
    intro fs hc hds
    rw [jsonExtend_cons]
    refine ih _ (comps_ensureFile fs (jsonPath a) hc (by simp [jsonPath]) ?_)
      (fun d hd => hds d (List.mem_cons_of_mem a hd))
    intro x hx
    rcases List.mem_cons.mp hx with h1 | h1
    · subst h1
      exact ⟨by decide, by decide⟩
    · rcases List.mem_cons.mp h1 with h2 | h2
      · rw [h2]
        exact hds a (List.mem_cons_self a t)
      · rcases List.mem_cons.mp h2 with h3 | h3
        · subst h3
          exact ⟨by decide, by decide⟩
        · simp at h3

theorem nodup_filterMap_names :
    ∀ l : List (List String × Bool),
      (l.map Prod.fst).Nodup →
      (∀ e ∈ l, e.1 = ["servers", entryName e.1]) →
      (l.filterMap (fun e =>
        if e.2 then if hasDelim (entryName e.1) then some (entryName e.1) else none
        else none)).Nodup := by
  intro l
  induction l with
  | nil => intro _ _; simp
  | cons e t ih =>
    intro hnd hsh
    rw [List.map_cons, List.nodup_cons] at hnd
    rw [List.filterMap_cons]
    split
    · exact ih hnd.2 (fun x hx => hsh x (List.mem_cons_of_mem e hx))
    · rename_i b heq
      rw [List.nodup_cons]
      refine ⟨?_, ih hnd.2 (fun x hx => hsh x (List.mem_cons_of_mem e hx))⟩
      intro hmem
      obtain ⟨e', he', hfe'⟩ := List.mem_filterMap.mp hmem
      have hb : entryName e'.1 = b := by
        split at hfe'
        · split at hfe'
          · exact Option.some_inj.mp hfe'
          · cases hfe'
        · cases hfe'
      have hb0 : entryName e.1 = b := by
        split at heq
        · split at heq
          · exact Option.some_inj.mp heq
          · cases heq
        · cases heq
      have h1 : e'.1 = e.1 := by
        rw [hsh e' (List.mem_cons_of_mem e he'), hsh e (List.mem_cons_self e t), hb, hb0]
      exact hnd.1 (h1 ▸ List.mem_map_of_mem Prod.fst he')

theorem enumDirs_nodup (fs : FS) (hnd : (fs.entries.map Prod.fst).Nodup) :
    (enumDirs fs).Nodup := by
  unfold enumDirs
  split
  · refine nodup_filterMap_names (childrenOf fs ["servers"]) ?_ ?_
    · have hsub : List.Sublist (childrenOf fs ["servers"]) fs.entries :=
        List.filter_sublist fs.entries
      exact List.Nodup.sublist (List.Sublist.map Prod.fst hsub) hnd
    · intro e he
      obtain ⟨-, hlen, hpre⟩ := mem_childrenOf.mp he
      exact pre2_eq e.1 (by simpa using hlen) hpre
  · simp

theorem visDirs_nodup (fs : FS) (hnd : (enumDirs fs).Nodup) : (visDirs fs).Nodup :=
  List.Nodup.sublist (List.filter_sublist _) hnd

theorem mem_enum_of_mem_vis {fs : FS} {d : String} (h : d ∈ visDirs fs) :
    d ∈ enumDirs fs := (mem_visDirs.mp h).1

theorem lowId_mem_ids (fs : FS) (x : String) (hx : x ∈ enumDirs fs) :
    lowId x ∈ (listServerIds fs).map lower := by
  rw [listServerIds_eq_map, List.map_map]
  exact List.mem_map_of_mem _ hx

theorem renameFS_some_eq {fs : FS} {old new : List String} {fs1 : FS}
    (h : renameFS fs old new = some fs1) :
    fs1 = FS.mk (fs.entries.map (fun e => (repl old new e.1, e.2))) := by
  unfold renameFS at h
  split at h
  · cases h
  · split at h
    · cases h
    · exact (Option.some_inj.mp h).symm

theorem no_slash_parts (n i d : String) (heq : n ++ "@" ++ i = d) (hd : '/' ∉ d.data) :
    '/' ∉ n.data ∧ '/' ∉ i.data := by
  subst heq
  rw [String.data_append, String.data_append] at hd
  constructor
  · intro hh
    exact hd (List.mem_append.mpr (Or.inl (List.mem_append.mpr (Or.inl hh))))
  · intro hh
    exact hd (List.mem_append.mpr (Or.inr hh))

end Kherimoya

namespace Kherimoya

/-! ## A conflict-free registry: `resolve_id_conflicts` returns `false`
and mutates nothing -/

theorem goNoConf (os : Nat → IdOracle) (uf mt : Nat) (fs : FS) (c : Bool) (k : Nat) :
    ∀ (ds seen : List String),
      List.Pairwise (fun a b => lowId a ≠ lowId b) ds →
      (∀ x ∈ ds, lowId x ∉ seen) →
      resolveGo os uf mt (ds.map objOf) seen fs c k = some (c, fs) := by
  intro ds
  induction ds with
  | nil => intro seen _ _; rfl
  | cons d t ih =>
    intro seen hpw hseen
    rw [List.map_cons]
    simp only [resolveGo]
    rw [if_neg (show ¬ lower ((objOf d).server_id.getD "") ∈ seen from
      hseen d (List.mem_cons_self d t))]
    rw [if_pos (show (objOf d).server_id ≠ none from Option.some_ne_none _)]
    have happ : seen ++ [lower ((objOf d).server_id.getD "")] = seen ++ [lowId d] := rfl
    rw [happ]
    apply ih
    · exact (List.pairwise_cons.mp hpw).2
    · intro x hx hm
      rcases List.mem_append.mp hm with h1 | h1
      · exact hseen x (List.mem_cons_of_mem d hx) h1
      · have hxe : lowId x = lowId d := by simpa using h1
        exact (List.pairwise_cons.mp hpw).1 x hx hxe.symm

theorem noConflictRun (os : Nat → IdOracle) (uf mt : Nat) (fs : FS)
    (hcomp : ∀ e ∈ fs.entries, e.1 ≠ [] ∧ ∀ x ∈ e.1, x ≠ "" ∧ '/' ∉ x.data)
    (hpw : List.Pairwise (fun a b => lowId a ≠ lowId b) (visDirs fs))
    (hjson : ∀ d ∈ visDirs fs, (jsonPath d, false) ∈ fs.entries) :
    resolveIdConflicts os uf mt fs = some (false, fs) := by
  simp only [resolveIdConflicts]
  rw [listServerObjects_char fs hcomp]
  dsimp only
  rw [jsonExtend_noop (visDirs fs) fs hjson]
  exact goNoConf os uf mt fs false 0 (visDirs fs) [] hpw (by intro x _ hm; simp at hm)

end Kherimoya

namespace Kherimoya

/-! ## The state `resolve_id_conflicts` leaves behind -/

/-- Main induction for C4: running the conflict loop over a snapshot of
server directories whose invariants hold leaves a registry with valid
components, case-insensitively distinct identifiers, and a `server.json`
in every visible server directory. -/
theorem goResolve_spec (os : Nat → IdOracle) (uf mt : Nat) (ho : ∀ j, uuidOK (os j)) :
    ∀ (pend done seen : List String) (fsc : FS) (c : Bool) (k : Nat) (b : Bool) (fsf : FS),
      (∀ e ∈ fsc.entries, e.1 ≠ [] ∧ ∀ x ∈ e.1, x ≠ "" ∧ '/' ∉ x.data) →
      visDirs fsc = done ++ pend →
      (enumDirs fsc).Nodup →
      (∀ d ∈ done ++ pend, (jsonPath d, false) ∈ fsc.entries) →
      (∀ x, (jsonPath x, true) ∈ fsc.entries → (["servers", x], true) ∈ fsc.entries) →
      List.Pairwise (fun a b => lowId a ≠ lowId b) done →
      (∀ x ∈ done, lowId x ∈ seen ∨ ∀ y ∈ pend, lowId x ≠ lowId y) →
      resolveGo os uf mt (pend.map objOf) seen fsc c k = some (b, fsf) →
      (∀ e ∈ fsf.entries, e.1 ≠ [] ∧ ∀ x ∈ e.1, x ≠ "" ∧ '/' ∉ x.data) ∧
      List.Pairwise (fun a b => lowId a ≠ lowId b) (visDirs fsf) ∧
      (∀ d ∈ visDirs fsf, (jsonPath d, false) ∈ fsf.entries) := by
  intro pend
  induction pend with
  | nil =>
    intro done seen fsc c k b fsf hcomp hvis hnd hjson hJ2 hF hG h
    have h' : (some (c, fsc) : Option (Bool × FS)) = some (b, fsf) := h
    rw [Option.some_inj] at h'
    have hfs : fsc = fsf := congrArg Prod.snd h'
    subst hfs
    rw [List.append_nil] at hvis
    refine ⟨hcomp, ?_, ?_⟩
    · rw [hvis]
      exact hF
    · rw [hvis]
      intro d hd
      exact hjson d (by simpa using hd)
  | cons d rest ih =>
    intro done seen fsc c k b fsf hcomp hvis hnd hjson hJ2 hF hG h
    have hdvis : d ∈ visDirs fsc := by
      rw [hvis]
      exact List.mem_append.mpr (Or.inr (List.mem_cons_self d rest))
    obtain ⟨hdenum, hdjson⟩ := mem_visDirs.mp hdvis
    obtain ⟨hsrv, hddir, hddel⟩ := mem_enumDirs.mp hdenum
    have hdcomp := (hcomp _ hddir).2 d (by simp)
    rcases hsp : splitFirst d with ⟨n, i⟩
    have hsplit := splitFirst_append_eq d hddel
    rw [hsp] at hsplit
    obtain ⟨hni, hnodelim⟩ := hsplit
    obtain ⟨hnsl, hisl⟩ := no_slash_parts n i d hni hdcomp.2
    have hobj : objOf d = ⟨n, some i, ["servers", d], true, false⟩ := by
      unfold objOf
      rw [hsp]
    have hndv : (done ++ d :: rest).Nodup := by
      rw [← hvis]
      exact visDirs_nodup fsc hnd
    have hdd : d ∉ done := fun hmem =>
      (List.nodup_append.mp hndv).2.2 hmem (List.mem_cons_self d rest)
    have hdr : d ∉ rest := (List.nodup_cons.mp (List.nodup_append.mp hndv).2.1).1
    rw [List.map_cons] at h
    simp only [resolveGo] at h
    by_cases hin : lowId d ∈ seen
    · -- conflict branch: a fresh identifier is allocated and the directory renamed
      rw [if_pos (show lower ((objOf d).server_id.getD "") ∈ seen from hin)] at h
      rcases hg : generateUniqueId fsc (os k) uf mt with _ | f
      · rw [hg] at h
        simp at h
      · rw [hg] at h
        rw [hobj] at h
        dsimp only [idStr, List.dropLast] at h
        have hfsl : ('/' : Char) ∉ f.data := generate_no_slash fsc (os k) uf mt f (ho k) hg
        have hpj : pathJoin ["servers"] (n ++ "@" ++ f) = ["servers", n ++ "@" ++ f] :=
          pathJoin_single _ _ (no_slash_concat n f hnsl hfsl)
            (ne_empty_of_hasDelim _ (hasDelim_concat n f))
        rw [hpj] at h
        have hfresh : lower f ∉ (listServerIds fsc).map lower :=
          generate_fresh fsc (os k) uf mt f hg
        have hdnld : lowId (n ++ "@" ++ f) = lower f := by
          rw [lowId, splitFirst_mk n f hnodelim]
        have hdnenum : (n ++ "@" ++ f) ∉ enumDirs fsc := by
          intro hm
          have := lowId_mem_ids fsc _ hm
          rw [hdnld] at this
          exact hfresh this
        have hdntgt : (["servers", n ++ "@" ++ f], true) ∉ fsc.entries := fun hm =>
          hdnenum (mem_enumDirs.mpr ⟨hsrv, hm, hasDelim_concat n f⟩)
        rcases hr : renameFS fsc ["servers", d] ["servers", n ++ "@" ++ f] with _ | fs1
        · rw [hr] at h
          simp at h
        · rw [hr] at h
          dsimp only at h
          have hfs1 : fs1 = FS.mk (fsc.entries.map
              (fun e => (repl ["servers", d] ["servers", n ++ "@" ++ f] e.1, e.2))) :=
            renameFS_some_eq hr
          have hdirnp : isDir fs1 ["servers", n ++ "@" ++ f] := by
            rw [hfs1]
            exact mem_renamed.mpr ⟨(["servers", d], true), hddir, repl_self _ _, rfl⟩
          have hjdn_notdir :
              (["servers", n ++ "@" ++ f] ++ ["server.json"], true) ∉ fs1.entries := by
            rw [hfs1]
            exact jsonPath_dn_renamed_not_mem fsc d (n ++ "@" ++ f) hdjson hJ2 hdntgt
          have hrc := refresh_char ⟨n, some f, ["servers", d], true, false⟩ fs1
            ["servers", n ++ "@" ++ f] hdirnp rfl (hasDelim_concat n f)
          rw [hrc, if_neg hjdn_notdir] at h
          dsimp only at h
          have hjdn_file :
              (["servers", n ++ "@" ++ f] ++ ["server.json"], false) ∈ fs1.entries := by
            rw [hfs1]
            exact jsonPath_d_to_dn fsc d _ false (hjson d (by simp))
          have hens : ensureFile fs1 (["servers", n ++ "@" ++ f] ++ ["server.json"]) = fs1 := by
            unfold ensureFile
            rw [if_pos hjdn_file]
          rw [hens] at h
          refine ih (done ++ [n ++ "@" ++ f]) seen fs1 true (k + 1) b fsf ?_ ?_ ?_ ?_ ?_ ?_ ?_ h
          · rw [hfs1]
            exact comps_renamed fsc d _ hcomp
              (ne_empty_of_hasDelim _ (hasDelim_concat n f)) (no_slash_concat n f hnsl hfsl)
          · rw [hfs1, visDirs_renamed fsc d (n ++ "@" ++ f) hddel (hasDelim_concat n f)
              hdjson hdntgt hJ2, hvis, List.map_append,
              map_subst_of_not_mem done d _ hdd, List.map_cons,
              map_subst_of_not_mem rest d _ hdr]
            simp
          · rw [hfs1, enumDirs_renamed fsc d _ hddel (hasDelim_concat n f)]
            exact nodup_map_subst _ d _ hnd hdnenum
          · intro x hx
            rw [hfs1]
            by_cases hxdn : x = n ++ "@" ++ f
            · subst hxdn
              exact jsonPath_d_to_dn fsc d _ false (hjson d (by simp))
            · have hxold : x ∈ done ++ d :: rest := by
                rcases List.mem_append.mp hx with h1 | h1
                · rcases List.mem_append.mp h1 with h2 | h2
                  · exact List.mem_append.mpr (Or.inl h2)
                  · exact absurd (by simpa using h2) hxdn
                · exact List.mem_append.mpr (Or.inr (List.mem_cons_of_mem d h1))
              have hxv : x ∈ visDirs fsc := by
                rw [hvis]
                exact hxold
              have hxd : x ≠ d := by
                intro hh
                subst hh
                rcases List.mem_append.mp hx with h1 | h1
                · rcases List.mem_append.mp h1 with h2 | h2
                  · exact hdd h2
                  · exact hxdn (by simpa using h2)
                · exact hdr h1
              exact (jsonPath_mem_renamed fsc d _ x false hxd hxdn).mpr (hjson x hxold)
          · rw [hfs1]
            exact J2_renamed fsc d _ hddir hJ2
          · rw [List.pairwise_append]
            refine ⟨hF, by simp, ?_⟩
            intro x hx y hy
            have hy' : y = n ++ "@" ++ f := by simpa using hy
            subst hy'
            have hxv : x ∈ visDirs fsc := by
              rw [hvis]
              exact List.mem_append.mpr (Or.inl hx)
            have hxids := lowId_mem_ids fsc x (mem_enum_of_mem_vis hxv)
            rw [hdnld]
            intro hh
            rw [hh] at hxids
            exact hfresh hxids
          · intro x hx
            rcases List.mem_append.mp hx with h1 | h1
            · rcases hG x h1 with h2 | h2
              · exact Or.inl h2
              · exact Or.inr (fun y hy => h2 y (List.mem_cons_of_mem d hy))
            · have hx' : x = n ++ "@" ++ f := by simpa using h1
              subst hx'
              refine Or.inr ?_
              intro y hy
              have hyv : y ∈ visDirs fsc := by
                rw [hvis]
                exact List.mem_append.mpr (Or.inr (List.mem_cons_of_mem d hy))
              have hyids := lowId_mem_ids fsc y (mem_enum_of_mem_vis hyv)
              rw [hdnld]
              intro hh
              rw [← hh] at hyids
              exact hfresh hyids
    · -- no-conflict branch: the identifier is recorded as seen and nothing changes
      rw [if_neg (show ¬ lower ((objOf d).server_id.getD "") ∈ seen from hin)] at h
      rw [if_pos (show (objOf d).server_id ≠ none from Option.some_ne_none _)] at h
      have happ : seen ++ [lower ((objOf d).server_id.getD "")] = seen ++ [lowId d] := rfl
      rw [happ] at h
      refine ih (done ++ [d]) (seen ++ [lowId d]) fsc c k b fsf hcomp ?_ hnd ?_ hJ2 ?_ ?_ h
      · rw [hvis]
        simp
      · intro x hx
        exact hjson x (by simpa using hx)
      · rw [List.pairwise_append]
        refine ⟨hF, by simp, ?_⟩
        intro x hx y hy
        have hy' : y = d := by simpa using hy
        rw [hy']
        rcases hG x hx with h2 | h2
        · intro hh
          rw [hh] at h2
          exact hin h2
        · exact h2 d (List.mem_cons_self d rest)
      · intro x hx
        rcases List.mem_append.mp hx with h1 | h1
        · rcases hG x h1 with h2 | h2
          · exact Or.inl (List.mem_append.mpr (Or.inl h2))
          · exact Or.inr (fun y hy => h2 y (List.mem_cons_of_mem d hy))
        · have hx' : x = d := by simpa using h1
          subst hx'
          exact Or.inl (List.mem_append.mpr (Or.inr (by simp)))

end Kherimoya

namespace Kherimoya

/-- **C4.** `resolve_id_conflicts` is idempotent: on any well-formed
registry (and with a uuid fallback that never emits a path separator),
once a first call completes, an immediately following second call —
whatever randomness and fuel it gets — returns `false` and leaves the
filesystem, and hence every directory, entity name and identifier,
untouched. -/
theorem c4_resolve_idempotent (os os2 : Nat → IdOracle) (uf mt uf2 mt2 : Nat) (fs : FS)
    (hwf : WF fs) (ho : ∀ j, uuidOK (os j)) (b : Bool) (fs1 : FS)
    (h : resolveIdConflicts os uf mt fs = some (b, fs1)) :
    resolveIdConflicts os2 uf2 mt2 fs1 = some (false, fs1) := by
  simp only [resolveIdConflicts] at h
  rw [listServerObjects_char fs hwf.1] at h
  dsimp only at h
  have hvd : ∀ x ∈ visDirs fs, x ≠ "" ∧ '/' ∉ x.data := by
    intro x hx
    have hm := (mem_enumDirs.mp (mem_enum_of_mem_vis hx)).2.1
    exact (hwf.1 _ hm).2 x (by simp)
  have hcomp0 := comps_jsonExtend (visDirs fs) fs hwf.1 hvd
  have hvis0 : visDirs (jsonExtend fs (visDirs fs)) = [] ++ visDirs fs := by
    rw [visDirs_jsonExtend]
    rfl
  have hnd0 : (enumDirs (jsonExtend fs (visDirs fs))).Nodup := by
    rw [enumDirs_jsonExtend]
    exact enumDirs_nodup fs hwf.2.1
  have hjson0 : ∀ d ∈ ([] ++ visDirs fs : List String),
      (jsonPath d, false) ∈ (jsonExtend fs (visDirs fs)).entries := by
    intro d hd
    exact jsonExtend_self_mem (visDirs fs) fs d (by simpa using hd)
  have hJ20 : ∀ x, (jsonPath x, true) ∈ (jsonExtend fs (visDirs fs)).entries →
      (["servers", x], true) ∈ (jsonExtend fs (visDirs fs)).entries := by
    intro x hx
    have hx' : (jsonPath x, true) ∈ fs.entries := (jsonExtend_true_mem _ _ _).mp hx
    have h2 := hwf.2.2 _ hx' 2 (by simp [jsonPath]) (by decide)
    have htake : (jsonPath x).take 2 = ["servers", x] := rfl
    rw [htake] at h2
    exact jsonExtend_mono _ _ h2
  obtain ⟨hc1, hc2, hc3⟩ := goResolve_spec os uf mt ho (visDirs fs) [] []
    (jsonExtend fs (visDirs fs)) false 0 b fs1 hcomp0 hvis0 hnd0 hjson0 hJ20
    List.Pairwise.nil (by intro x hx; simp at hx) h
  exact noConflictRun os2 uf2 mt2 fs1 hc1 hc2 hc3

/-- Witness for C4: a registry with two case-insensitively colliding
identifiers; the first call renames one directory, the second call is a
no-op returning `false`. -/
theorem c4_witness :
    WF (FS.mk [(["servers"], true), (["servers", "a@x"], true), (["servers", "b@x"], true)]) ∧
    (∀ j : Nat, uuidOK ((fun _ : Nat => IdOracle.mk (fun _ : Nat => (35 : Fin 36))
      (fun _ : Nat => "u")) j)) ∧
    resolveIdConflicts (fun _ : Nat => IdOracle.mk (fun _ : Nat => (0 : Fin 36))
      (fun _ : Nat => "v")) 5 7
      (FS.mk [(["servers"], true), (["servers", "a@x"], true), (["servers", "b@zzzz"], true),
        (["servers", "a@x", "server.json"], false),
        (["servers", "b@zzzz", "server.json"], false)]) =
      some (false,
        FS.mk [(["servers"], true), (["servers", "a@x"], true), (["servers", "b@zzzz"], true),
          (["servers", "a@x", "server.json"], false),
          (["servers", "b@zzzz", "server.json"], false)]) :=
  ⟨by decide, fun j m => (by decide : ('/' : Char) ∉ "u".data),
   c4_resolve_idempotent
     (fun _ => IdOracle.mk (fun _ => (35 : Fin 36)) (fun _ => "u"))
     (fun _ => IdOracle.mk (fun _ => (0 : Fin 36)) (fun _ => "v"))
     2 3 5 7
     (FS.mk [(["servers"], true), (["servers", "a@x"], true), (["servers", "b@x"], true)])
     (by decide)
     (fun j m => (by decide : ('/' : Char) ∉ "u".data))
     true
     (FS.mk [(["servers"], true), (["servers", "a@x"], true), (["servers", "b@zzzz"], true),
       (["servers", "a@x", "server.json"], false),
       (["servers", "b@zzzz", "server.json"], false)])
     rfl⟩

end Kherimoya

namespace Kherimoya

/-- **C9.** On a registry holding exactly the two server directories
`Alpha@ab12` and `Beta@ab12` (a manually crafted case-insensitive
identifier collision), a completing `resolve_id_conflicts` returns
`true`; the snapshot is processed in order, so `Alpha` keeps its
directory, name and identifier while `Beta` — and only `Beta` — receives
a freshly allocated identifier that differs case-insensitively from the
other identifier. -/
theorem c9_conflict_scenario (os : Nat → IdOracle) (uf mt : Nat)
    (ho : ∀ j, uuidOK (os j)) (b : Bool) (fs1 : FS)
    (h : resolveIdConflicts os uf mt
      (FS.mk [(["servers"], true), (["servers", "Alpha@ab12"], true),
        (["servers", "Beta@ab12"], true)]) = some (b, fs1)) :
    b = true ∧ ∃ f : String, lower f ≠ "ab12" ∧
      listServers fs1 = [("Alpha", "ab12"), ("Beta", f)] ∧
      (["servers", "Alpha@ab12"], true) ∈ fs1.entries := by
  have h' : resolveGo os uf mt
      [⟨"Alpha", some "ab12", ["servers", "Alpha@ab12"], true, false⟩,
       ⟨"Beta", some "ab12", ["servers", "Beta@ab12"], true, false⟩] []
      (FS.mk [(["servers"], true), (["servers", "Alpha@ab12"], true),
        (["servers", "Beta@ab12"], true),
        (["servers", "Alpha@ab12", "server.json"], false),
        (["servers", "Beta@ab12", "server.json"], false)]) false 0 = some (b, fs1) := h
  simp only [resolveGo] at h'
  rw [if_neg (by decide)] at h'
  rw [if_pos (by decide)] at h'
  rcases hg : generateUniqueId
      (FS.mk [(["servers"], true), (["servers", "Alpha@ab12"], true),
        (["servers", "Beta@ab12"], true),
        (["servers", "Alpha@ab12", "server.json"], false),
        (["servers", "Beta@ab12", "server.json"], false)]) (os 0) uf mt with _ | f
  · rw [hg] at h'
    simp at h'
  · rw [hg] at h'
    dsimp only [idStr, List.dropLast] at h'
    have hfsl : ('/' : Char) ∉ f.data := generate_no_slash _ (os 0) uf mt f (ho 0) hg
    have hpj : pathJoin ["servers"] ("Beta" ++ "@" ++ f) = ["servers", "Beta" ++ "@" ++ f] :=
      pathJoin_single _ _ (no_slash_concat "Beta" f (by decide) hfsl)
        (ne_empty_of_hasDelim _ (hasDelim_concat "Beta" f))
    rw [hpj] at h'
    have hfresh := generate_fresh _ (os 0) uf mt f hg
    have hfr : lower f ≠ "ab12" := by
      intro hh
      apply hfresh
      rw [hh]
      decide
    rcases hr : renameFS
        (FS.mk [(["servers"], true), (["servers", "Alpha@ab12"], true),
          (["servers", "Beta@ab12"], true),
          (["servers", "Alpha@ab12", "server.json"], false),
          (["servers", "Beta@ab12", "server.json"], false)])
        ["servers", "Beta@ab12"] ["servers", "Beta" ++ "@" ++ f] with _ | fs2
    · rw [hr] at h'
      simp at h'
    · rw [hr] at h'
      dsimp only at h'
      have hfs2 : fs2 = FS.mk [(["servers"], true), (["servers", "Alpha@ab12"], true),
          (["servers", "Beta" ++ "@" ++ f], true),
          (["servers", "Alpha@ab12", "server.json"], false),
          (["servers", "Beta" ++ "@" ++ f, "server.json"], false)] := by
        rw [renameFS_some_eq hr]
        rfl
      subst hfs2
      have hdir9 : isDir
          (FS.mk [(["servers"], true), (["servers", "Alpha@ab12"], true),
            (["servers", "Beta" ++ "@" ++ f], true),
            (["servers", "Alpha@ab12", "server.json"], false),
            (["servers", "Beta" ++ "@" ++ f, "server.json"], false)])
          ["servers", "Beta" ++ "@" ++ f] :=
        List.mem_cons_of_mem _ (List.mem_cons_of_mem _ (List.mem_cons_self _ _))
      have hrc := refresh_char ⟨"Beta", some f, ["servers", "Beta@ab12"], true, false⟩
        (FS.mk [(["servers"], true), (["servers", "Alpha@ab12"], true),
          (["servers", "Beta" ++ "@" ++ f], true),
          (["servers", "Alpha@ab12", "server.json"], false),
          (["servers", "Beta" ++ "@" ++ f, "server.json"], false)])
        ["servers", "Beta" ++ "@" ++ f] hdir9 rfl (hasDelim_concat "Beta" f)
      rw [hrc, if_neg (by simp)] at h'
      dsimp only at h'
      have hens : ensureFile
          (FS.mk [(["servers"], true), (["servers", "Alpha@ab12"], true),
            (["servers", "Beta" ++ "@" ++ f], true),
            (["servers", "Alpha@ab12", "server.json"], false),
            (["servers", "Beta" ++ "@" ++ f, "server.json"], false)])
          (["servers", "Beta" ++ "@" ++ f] ++ ["server.json"]) =
          FS.mk [(["servers"], true), (["servers", "Alpha@ab12"], true),
            (["servers", "Beta" ++ "@" ++ f], true),
            (["servers", "Alpha@ab12", "server.json"], false),
            (["servers", "Beta" ++ "@" ++ f, "server.json"], false)] := by
        unfold ensureFile
        rw [if_pos (by simp)]
      rw [hens] at h'
      rw [Option.some_inj] at h'
      have hb : true = b := congrArg Prod.fst h'
      have hfs : (FS.mk [(["servers"], true), (["servers", "Alpha@ab12"], true),
          (["servers", "Beta" ++ "@" ++ f], true),
          (["servers", "Alpha@ab12", "server.json"], false),
          (["servers", "Beta" ++ "@" ++ f, "server.json"], false)]) = fs1 :=
        congrArg Prod.snd h'
      subst hfs
      refine ⟨hb.symm, f, hfr, ?_, by simp⟩
      rfl

end Kherimoya

namespace Kherimoya

/-- Witness for C9 at a concrete oracle (all `secrets.choice` draws give
`z`): the collision resolves to `Beta@zzzz` and the call returns `true`. -/
theorem c9_witness :
    (∀ j : Nat, uuidOK ((fun _ : Nat => IdOracle.mk (fun _ : Nat => (35 : Fin 36))
      (fun _ : Nat => "u")) j)) ∧
    (true = true ∧ ∃ f : String, lower f ≠ "ab12" ∧
      listServers (FS.mk [(["servers"], true), (["servers", "Alpha@ab12"], true),
        (["servers", "Beta@zzzz"], true),
        (["servers", "Alpha@ab12", "server.json"], false),
        (["servers", "Beta@zzzz", "server.json"], false)]) =
          [("Alpha", "ab12"), ("Beta", f)] ∧
      (["servers", "Alpha@ab12"], true) ∈ (FS.mk [(["servers"], true),
        (["servers", "Alpha@ab12"], true), (["servers", "Beta@zzzz"], true),
        (["servers", "Alpha@ab12", "server.json"], false),
        (["servers", "Beta@zzzz", "server.json"], false)]).entries) :=
  ⟨fun j m => (by decide : ('/' : Char) ∉ "u".data),
   c9_conflict_scenario
     (fun _ : Nat => IdOracle.mk (fun _ : Nat => (35 : Fin 36)) (fun _ : Nat => "u"))
     2 3
     (fun j m => (by decide : ('/' : Char) ∉ "u".data))
     true
     (FS.mk [(["servers"], true), (["servers", "Alpha@ab12"], true),
       (["servers", "Beta@zzzz"], true),
       (["servers", "Alpha@ab12", "server.json"], false),
       (["servers", "Beta@zzzz", "server.json"], false)])
     rfl⟩

end Kherimoya
